import Mathlib

/-!
# Backrest orchestrator: operation binding, backup helper, snapshot indexing, restore task

A shallow embedding of `internal/orchestrator/tasks.go` and
`internal/orchestrator/taskrestore.go`, and of the task that
`TestTaskRescheduling` in `internal/orchestrator/orchestrator_test.go` schedules.
The scheduling loop that test drives is declared in files that are not
translated here; it is modelled from the specification, and every definition
obtained that way says so.

Conventions of the embedding.

* Go code that mutates an `*v1.Operation` in place and talks to collaborators is
  written in explicit state-passing style: every function takes the current
  `World` and returns the new one together with the (possibly changed) operation.
* The collaborators (operation log, repo handles, hook executor, wall clock) are
  not part of the translated files; they are parameters.  The operation log is
  an oracle that sees the complete history of calls made so far, which covers
  every deterministic behaviour it may have.
* `time.Now()` takes the next reading of a clock, given as a stream of readings.
-/

namespace Backrest


/-! ## Errors -/

/-- Go `error` values that flow through the orchestrator: a leaf error
(`errors.New`, or `fmt.Errorf` without `%w`), an error produced by
`fmt.Errorf("<msg>: %w", inner)` where `inner` may be a nil error, and a
`*multierror.Error` holding a list of errors. -/
inductive GoError where
  | errorString (text : String)
  | wrapError (msg : String) (inner : Option GoError)
  | multi (errs : List GoError)

/-- Rendering of a list of already rendered errors by `multierror.ListFormatFunc`. -/
def listFormat (texts : List String) : String :=
  match texts with
  | [t] => "1 error occurred:\n\t* " ++ t ++ "\n\n"
  | ts => toString ts.length ++ " errors occurred:\n\t" ++
      String.intercalate "\n\t" (ts.map fun t => "* " ++ t) ++ "\n\n"

mutual
/-- The method `Error()` of a Go error: its text. -/
def GoError.Error : GoError → String
  | .errorString text => text
  | .wrapError msg (some inner) => msg ++ ": " ++ inner.Error
  | .wrapError msg none => msg ++ ": %!w(<nil>)"
  | .multi errs => listFormat (GoError.ErrorList errs)
/-- The texts of a list of errors, in order. -/
def GoError.ErrorList : List GoError → List String
  | [] => []
  | e :: es => e.Error :: GoError.ErrorList es
end

/-- The errors a value contributes when it is flattened by `multierror.Append`:
the members of a `*multierror.Error`, the error itself otherwise. -/
def GoError.flatten : GoError → List GoError
  | .multi errs => errs
  | e => [e]

/-- The function `multierror.Append(err, e)` for a non-nil `err` and a non-nil
`e`: a `*multierror.Error` whose list is `err` (its members when it is
itself a `*multierror.Error`) followed by `e` (flattened likewise). -/
def multierrorAppend (err e : GoError) : GoError :=
  .multi (err.flatten ++ e.flatten)

/-- The table `unicode.IsPrint`: which runes Go prints as they are.  The table
belongs to the Go library and is a parameter of everything that formats with the
verb `%q`. -/
abbrev PrintTable := Char → Bool

/-- One lower-case hexadecimal digit, the digit of `n` modulo 16. -/
def hexDigit (n : Nat) : Char :=
  "0123456789abcdef".toList.getD (n % 16) '0'

/-- The `width` lowest hexadecimal digits of `n`, most significant first. -/
def hexDigits (width n : Nat) : String :=
  String.mk ((List.range width).reverse.map fun i => hexDigit (n / 16 ^ i))

/-- The function `appendEscapedRune` of `strconv`, as `strconv.Quote` calls it
(quote character `"`, not restricted to ASCII): the text that stands for the rune
`r` inside the quotes. -/
def escapedRune (isPrint : PrintTable) (r : Char) : String :=
  if r = '"' ∨ r = '\\' then String.mk ['\\', r]
  else if isPrint r then String.singleton r
  else if r.toNat = 7 then "\\a"
  else if r.toNat = 8 then "\\b"
  else if r.toNat = 12 then "\\f"
  else if r.toNat = 10 then "\\n"
  else if r.toNat = 13 then "\\r"
  else if r.toNat = 9 then "\\t"
  else if r.toNat = 11 then "\\v"
  else if r.toNat < 32 ∨ r.toNat = 127 then "\\x" ++ hexDigits 2 r.toNat
  else if r.toNat < 65536 then "\\u" ++ hexDigits 4 r.toNat
  else "\\U" ++ hexDigits 8 r.toNat

/-- The function `strconv.Quote`, which the verb `%q` applies to a string: the
text in double quotes with every rune escaped as Go source would write it.  (A
string here is a sequence of runes, so the bytes that are not valid UTF-8, which
Go escapes one by one, do not occur.) -/
def strconvQuote (isPrint : PrintTable) (s : String) : String :=
  "\"" ++ String.join (s.toList.map (escapedRune isPrint)) ++ "\""

/-! ## Time -/

/-- A `time.Time`, as nanoseconds since the Unix epoch. -/
abbrev Time := Int

/-- Wrap-around of a mathematical integer into `int64`. -/
def wrapInt64 (x : Int) : Int := (x + 2 ^ 63) % 2 ^ 64 - 2 ^ 63

/-- The method `t.Unix()`: whole seconds since the epoch, rounded down. -/
def Time.Unix (t : Time) : Int := t / 1000000000

/-- The method `t.Nanosecond()`: nanosecond offset within the second. -/
def Time.Nanosecond (t : Time) : Int := t % 1000000000

/-- Body of `curTimeMillis` at the clock reading `t`:
`t.Unix() * 1000 + int64(t.Nanosecond() / 1000000)` in `int64` arithmetic. -/
def millisOf (t : Time) : Int :=
  wrapInt64 (wrapInt64 (Time.Unix t * 1000) + Time.Nanosecond t / 1000000)

/-- The largest `time.Duration`, in nanoseconds. -/
def maxDuration : Int := 2 ^ 63 - 1

/-- The smallest `time.Duration`, in nanoseconds. -/
def minDuration : Int := -(2 ^ 63)

/-- The method `t.Sub(u)`: the difference in nanoseconds, saturated to the range
of `time.Duration`. -/
def Time.Sub (t u : Time) : Int :=
  if t - u > maxDuration then maxDuration
  else if t - u < minDuration then minDuration
  else t - u

/-- The constant `time.Millisecond`, in nanoseconds. -/
def Millisecond : Int := 1000000

/-- The constant `time.Second`, in nanoseconds. -/
def Second : Int := 1000000000

/-! ## Operations -/

/-- The enum `v1.OperationStatus`, with the members the orchestrator uses. -/
inductive OperationStatus where
  | STATUS_UNKNOWN
  | STATUS_PENDING
  | STATUS_INPROGRESS
  | STATUS_SUCCESS
  | STATUS_ERROR
  deriving DecidableEq, Repr

/-- A progress or summary entry of a running backup, as stored in the operation. -/
structure BackupProgressEntry where
  payload : String
  deriving DecidableEq, Repr

/-- A progress or summary entry of a running restore. -/
structure RestoreProgressEntry where
  payload : String
  deriving DecidableEq, Repr

/-- A snapshot of a repo; only its id is inspected by the orchestrator. -/
structure Snapshot where
  Id : String
  deriving DecidableEq, Repr

/-- The message `v1.OperationRestore`. -/
structure OperationRestore where
  Path : String
  Target : String
  Status : Option RestoreProgressEntry
  deriving DecidableEq, Repr

/-- The oneof `Op` of `v1.Operation`. -/
inductive OperationPayload where
  | unset
  | OperationBackup (LastStatus : Option BackupProgressEntry)
  | OperationRestore (body : Option OperationRestore)
  | OperationIndexSnapshot (Snapshot : Snapshot)
  deriving DecidableEq, Repr

/-- The message `v1.Operation`. -/
structure Operation where
  Id : Int := 0
  PlanId : String := ""
  RepoId : String := ""
  SnapshotId : String := ""
  UnixTimeStartMs : Int := 0
  UnixTimeEndMs : Int := 0
  Status : OperationStatus := .STATUS_UNKNOWN
  DisplayMessage : String := ""
  Op : OperationPayload := .unset
  deriving DecidableEq, Repr

/-- The message `v1.Plan`, with the fields the orchestrator reads. -/
structure Plan where
  Id : String
  Repo : String
  Cron : String := ""
  deriving DecidableEq, Repr

/-! ## The world: operation log history and clock -/

/-- A call made to the operation log. -/
inductive Call where
  | Add (op : Operation)
  | Update (op : Operation)
  | BulkAdd (ops : List Operation)
  | HasIndexedSnapshot (snapshotId : String)
  deriving DecidableEq, Repr

/-- A call to the operation log together with the number of clock readings
that had been taken when it was made. -/
structure Logged where
  tick : Nat
  call : Call
  deriving DecidableEq, Repr

/-- The mutable surroundings of a task: the history of operation log calls,
oldest first, the number of clock readings taken so far, and the operation of
a progress update that was started in a goroutine and has not reached the
operation log yet (it is sent as it stood when the goroutine was started). -/
structure World where
  calls : List Logged := []
  tick : Nat := 0
  inflight : Option Operation := none
  deriving DecidableEq, Repr

/-- The operation log, as an oracle: the result of each call may depend on the
whole history of earlier calls.  `Add` assigns the persistent id. -/
structure OpLog where
  Add : List Logged → Operation → Except GoError Int
  Update : List Logged → Operation → Option GoError
  BulkAdd : List Logged → List Operation → Option GoError
  HasIndexedSnapshot : List Logged → String → Except GoError Int

/-- The wall clock: the stream of readings returned by successive `time.Now()`. -/
abbrev Clock := Nat → Time

/-- The call `time.Now()`. -/
def timeNow (clock : Clock) (w : World) : Time × World :=
  (clock w.tick, { w with tick := w.tick + 1 })

/-- The function `curTimeMillis`. -/
def curTimeMillis (clock : Clock) (w : World) : Int × World :=
  let (t, w) := timeNow clock w
  (millisOf t, w)

/-- The call `time.Since(u)`, which is `time.Now().Sub(u)`. -/
def timeSince (clock : Clock) (u : Time) (w : World) : Int × World :=
  let (t, w) := timeNow clock w
  (Time.Sub t u, w)

/-- Append a call to the history. -/
def World.log (w : World) (c : Call) : World :=
  { w with calls := w.calls ++ [⟨w.tick, c⟩] }

/-- The call `oplog.Add(op)`: on success the operation carries its new id. -/
def oplogAdd (log : OpLog) (op : Operation) (w : World) : Except GoError Operation × World :=
  match log.Add w.calls op with
  | .error e => (.error e, w.log (.Add op))
  | .ok id => (.ok { op with Id := id }, w.log (.Add op))

/-- The call `oplog.Update(op)`. -/
def oplogUpdate (log : OpLog) (op : Operation) (w : World) : Option GoError × World :=
  (log.Update w.calls op, w.log (.Update op))

/-- The call `oplog.BulkAdd(ops)`. -/
def oplogBulkAdd (log : OpLog) (ops : List Operation) (w : World) : Option GoError × World :=
  (log.BulkAdd w.calls ops, w.log (.BulkAdd ops))

/-- The call `oplog.HasIndexedSnapshot(id)`. -/
def oplogHasIndexedSnapshot (log : OpLog) (snapshotId : String) (w : World) :
    Except GoError Int × World :=
  (log.HasIndexedSnapshot w.calls snapshotId, w.log (.HasIndexedSnapshot snapshotId))

/-! ## `WithOperation` -/

/-- The type of the closure `do` passed to `WithOperation`: it may change the
operation it closes over and the world, and returns an error or nil. -/
abbrev DoFn := Operation → World → Option GoError × Operation × World

/-- The function `WithOperation` of `tasks.go`.  Returns the error (or nil), the
operation as it stands on return, and the world. -/
def WithOperation (log : OpLog) (clock : Clock) (op : Operation) (doFn : DoFn) (w : World) :
    Option GoError × Operation × World :=
  match oplogAdd log op w with
  | (.error err, w) =>
    (some (.wrapError "failed to add operation to oplog" (some err)), op, w)
  | (.ok op, w) =>
    let op := if op.Status = .STATUS_UNKNOWN then { op with Status := .STATUS_INPROGRESS } else op
    match doFn op w with
    | (err, op, w) =>
      let op := match err with
        | some e => { op with Status := .STATUS_ERROR, DisplayMessage := e.Error }
        | none => op
      let (now, w) := curTimeMillis clock w
      let op := { op with UnixTimeEndMs := now }
      let op := if op.Status = .STATUS_INPROGRESS then { op with Status := .STATUS_SUCCESS } else op
      let (e, w) := oplogUpdate log op w
      match err with
      | some err =>
        (some (multierrorAppend err (.wrapError "failed to update operation in oplog" e)), op, w)
      | none => (none, op, w)

/-! ## Collaborators of the backup helper -/

/-- The message `v1.Repo`: the configuration of a repo. -/
structure RepoConfig where
  Id : String
  deriving DecidableEq, Repr

/-- A repo handle (`*RepoOrchestrator`).  `Backup` and `Restore` answer with the
progress entries they deliver to the progress callback, in order, followed by
their result: a summary or an error. -/
structure Repo where
  Config : RepoConfig
  Backup : Plan → List BackupProgressEntry × Except GoError BackupProgressEntry
  SnapshotsForPlan : Plan → Except GoError (List Snapshot)
  Restore : String → String → String →
    List RestoreProgressEntry × Except GoError RestoreProgressEntry

/-- The variable bag `hook.HookVars` passed to the hook executor. -/
structure HookVars where
  Task : String
  Error : String
  SnapshotId : String
  deriving DecidableEq, Repr

/-- The enum `v1.Hook_Condition`, with the member the orchestrator uses. -/
inductive HookCondition where
  | CONDITION_ANY_ERROR
  deriving DecidableEq, Repr

/-- One invocation `ExecuteHooks(repo, plan, conditions, vars)`. -/
structure HookCall where
  repo : RepoConfig
  plan : Option Plan
  conditions : List HookCondition
  vars : HookVars
  deriving DecidableEq, Repr

/-- The parts of `*Orchestrator` the tasks use. -/
structure Orchestrator where
  oplog : OpLog
  GetRepo : String → Except GoError Repo
  ExecuteHooks : HookCall → Option GoError

/-! ## `backupHelper` and `indexSnapshotsHelper` -/

/-- The progress callback that `backupHelper` hands to `repo.Backup`.  Its state
is the variable `lastSent`, the operation and the world. -/
def progressCallback (orchestrator : Orchestrator) (clock : Clock)
    (s : Time × Operation × World) (entry : BackupProgressEntry) : Time × Operation × World :=
  match s with
  | (lastSent, op, w) =>
    let (since, w) := timeSince clock lastSent w
    if since < 200 * Millisecond then (lastSent, op, w)
    else
      let (lastSent, w) := timeNow clock w
      let op := { op with Op := .OperationBackup (some entry) }
      let (_, w) := oplogUpdate orchestrator.oplog op w
      (lastSent, op, w)

/-- The closure that `backupHelper` passes to `WithOperation`. -/
def backupDo (orchestrator : Orchestrator) (clock : Clock) (isPrint : PrintTable) (plan : Plan)
    (startTime : Time) :
    DoFn := fun op w =>
  match orchestrator.GetRepo plan.Repo with
  | .error err =>
    (some (.wrapError ("couldn't get repo " ++ strconvQuote isPrint plan.Repo) (some err)),
      op, w)
  | .ok repo =>
    let (lastSent, w) := timeNow clock w
    match repo.Backup plan with
    | (entries, result) =>
      match entries.foldl (progressCallback orchestrator clock) (lastSent, op, w) with
      | (_, op, w) =>
        match result with
        | .error err =>
          (some (.wrapError ("repo.Backup for repo " ++ strconvQuote isPrint plan.Repo)
            (some err)), op, w)
        | .ok summary =>
          let op := { op with Op := .OperationBackup (some summary) }
          match oplogUpdate orchestrator.oplog op w with
          | (some err, w) =>
            (some (.errorString ("update oplog with summary for backup: " ++ err.Error)), op, w)
          | (none, w) =>
            let (_, w) := timeSince clock startTime w
            (none, op, w)

/-- The loop of `indexSnapshotsHelper` over the snapshots, accumulating
`indexOps`. -/
def indexLoop (orchestrator : Orchestrator) (isPrint : PrintTable) (plan : Plan)
    (opTime : Int) :
    List Snapshot → List Operation → World → Except GoError (List Operation) × World
  | [], indexOps, w => (.ok indexOps, w)
  | snapshot :: rest, indexOps, w =>
    match oplogHasIndexedSnapshot orchestrator.oplog snapshot.Id w with
    | (.error err, w) =>
      (.error (.wrapError ("HasIndexSnapshot for snapshot " ++ strconvQuote isPrint snapshot.Id)
        (some err)), w)
    | (.ok opid, w) =>
      if opid < 0 then indexLoop orchestrator isPrint plan opTime rest indexOps w
      else indexLoop orchestrator isPrint plan opTime rest (indexOps ++ [{
        RepoId := plan.Repo,
        PlanId := plan.Id,
        UnixTimeStartMs := opTime,
        UnixTimeEndMs := opTime,
        Status := .STATUS_SUCCESS,
        Op := .OperationIndexSnapshot snapshot }]) w

/-- The function `indexSnapshotsHelper` of `tasks.go`. -/
def indexSnapshotsHelper (orchestrator : Orchestrator) (clock : Clock) (isPrint : PrintTable)
    (plan : Plan) (w : World) : Option GoError × World :=
  match orchestrator.GetRepo plan.Repo with
  | .error err =>
    (some (.wrapError ("couldn't get repo " ++ strconvQuote isPrint plan.Repo) (some err)), w)
  | .ok repo =>
    match repo.SnapshotsForPlan plan with
    | .error err =>
      (some (.wrapError ("get snapshots for plan " ++ strconvQuote isPrint plan.Id) (some err)), w)
    | .ok snapshots =>
      let (startTime, w) := timeNow clock w
      let (opTime, w) := curTimeMillis clock w
      match indexLoop orchestrator isPrint plan opTime snapshots [] w with
      | (.error err, w) => (some err, w)
      | (.ok indexOps, w) =>
        match oplogBulkAdd orchestrator.oplog indexOps w with
        | (some err, w) => (some (.wrapError "BulkAdd snapshot operations" (some err)), w)
        | (none, w) =>
          let (_, w) := timeSince clock startTime w
          (none, w)

/-- The function `backupHelper` of `tasks.go`. -/
def backupHelper (orchestrator : Orchestrator) (clock : Clock) (isPrint : PrintTable)
    (plan : Plan) (w : World) :
    Option GoError × World :=
  let (startMs, w) := curTimeMillis clock w
  let op : Operation := {
    PlanId := plan.Id,
    RepoId := plan.Repo,
    UnixTimeStartMs := startMs,
    Status := .STATUS_INPROGRESS,
    Op := .OperationBackup none }
  let (startTime, w) := timeNow clock w
  match WithOperation orchestrator.oplog clock op
      (backupDo orchestrator clock isPrint plan startTime) w with
  | (some err, _, w) => (some (.wrapError "backup operation" (some err)), w)
  | (none, _, w) =>
    match indexSnapshotsHelper orchestrator clock isPrint plan w with
    | (some err, w) =>
      (some (.wrapError "reindexing snapshots after backup operation" (some err)), w)
    | (none, w) => (none, w)

/-! ## The one-off restore task (`taskrestore.go`) -/

/-- The struct `RestoreTaskOpts`. -/
structure RestoreTaskOpts where
  RepoId : String
  PlanId : String
  SnapshotId : String
  Path : String
  Target : String
  deriving DecidableEq, Repr

/-- The methods of the embedded struct `TaskWithOperation` that `RestoreTask`
calls.  The struct is declared outside the translated files, so its state is an
arbitrary type `τ` and its two methods are arbitrary functions on it. -/
structure TaskWithOperation (τ : Type) where
  setOperation : τ → Operation → World → Option GoError × τ × World
  runWithOpAndContext : τ → DoFn → World → Option GoError × τ × World

/-- The struct `RestoreTask`; `atTime` is its field `at`, nil once consumed. -/
structure RestoreTask (τ : Type) where
  base : τ
  restoreOpts : RestoreTaskOpts
  atTime : Option Time

/-- The constructor `NewOneoffRestoreTask`; `base` is the fresh embedded
`TaskWithOperation`. -/
def NewOneoffRestoreTask {τ : Type} (base : τ) (opts : RestoreTaskOpts) (atTime : Time) :
    RestoreTask τ :=
  { base := base, restoreOpts := opts, atTime := some atTime }

/-- The method `RestoreTask.Name`. -/
def RestoreTask.Name {τ : Type} (t : RestoreTask τ) : String :=
  "restore snapshot " ++ t.restoreOpts.SnapshotId ++ " in repo " ++ t.restoreOpts.RepoId

/-- The method `RestoreTask.Next`.  Besides the returned time, the task and the
world, the result lists the operations handed to `setOperation` by this call.
`timeToUnixMillis` is the helper of that name, declared outside the translated
files. -/
def RestoreTask.Next {τ : Type} (b : TaskWithOperation τ) (timeToUnixMillis : Time → Int)
    (t : RestoreTask τ) (_now : Time) (w : World) :
    Option Time × List Operation × RestoreTask τ × World :=
  match t.atTime with
  | some ret =>
    let op : Operation := {
      PlanId := t.restoreOpts.PlanId,
      RepoId := t.restoreOpts.RepoId,
      SnapshotId := t.restoreOpts.SnapshotId,
      UnixTimeStartMs := timeToUnixMillis ret,
      Status := .STATUS_PENDING,
      Op := .OperationRestore none }
    match b.setOperation t.base op w with
    | (some _, base, w) => (none, [op], { t with atTime := none, base := base }, w)
    | (none, base, w) => (some ret, [op], { t with atTime := none, base := base }, w)
  | none => (none, [], t, w)

/-- A sequence of `Next` calls on one task, one per element of `nows`: the
returned time and the operations handed to `setOperation`, call by call. -/
def RestoreTask.NextAll {τ : Type} (b : TaskWithOperation τ) (timeToUnixMillis : Time → Int) :
    List Time → RestoreTask τ → World → List (Option Time × List Operation)
  | [], _, _ => []
  | now :: nows, t, w =>
    match RestoreTask.Next b timeToUnixMillis t now w with
    | (ret, ops, t, w) => (ret, ops) :: RestoreTask.NextAll b timeToUnixMillis nows t w

/-- The call `sendWg.Wait()` of the restore progress callback: when it returns,
the update that was in flight, if any, has reached the operation log. -/
def awaitInflight (orch : Orchestrator) (w : World) : World :=
  match w.inflight with
  | none => w
  | some op => (oplogUpdate orch.oplog op { w with inflight := none }).2

/-- The progress callback that `RestoreTask.Run` hands to `repo.Restore`.  The
update is sent from a goroutine: it is left in flight here and reaches the
operation log by the next `sendWg.Wait()`.  Nothing awaits the update started
for the last entry sent, so it is still in flight when `repo.Restore` returns. -/
def restoreProgressCallback (orch : Orchestrator) (clock : Clock) (opts : RestoreTaskOpts)
    (s : Time × Operation × World) (entry : RestoreProgressEntry) : Time × Operation × World :=
  match s with
  | (lastSent, op, w) =>
    let w := awaitInflight orch w
    let (since, w) := timeSince clock lastSent w
    if since < 1 * Second then (lastSent, op, w)
    else
      let (lastSent, w) := timeNow clock w
      let op := { op with Op := .OperationRestore (some ⟨opts.Path, opts.Target, some entry⟩) }
      (lastSent, op, { w with inflight := some op })

/-- The closure that `RestoreTask.Run` passes to `runWithOpAndContext`. -/
def restoreDo (orch : Orchestrator) (clock : Clock) (isPrint : PrintTable)
    (opts : RestoreTaskOpts) : DoFn :=
  fun op w =>
  let op := { op with Op := .OperationRestore (some ⟨opts.Path, opts.Target, none⟩) }
  let (startMs, w) := curTimeMillis clock w
  let op := { op with UnixTimeStartMs := startMs }
  match orch.GetRepo opts.RepoId with
  | .error err =>
    (some (.wrapError ("couldn't get repo " ++ strconvQuote isPrint opts.RepoId) (some err)),
      op, w)
  | .ok repo =>
    let (lastSent, w) := timeNow clock w
    match repo.Restore opts.SnapshotId opts.Path opts.Target with
    | (entries, result) =>
      match entries.foldl (restoreProgressCallback orch clock opts) (lastSent, op, w) with
      | (_, op, w) =>
        match result with
        | .error err => (some (.wrapError "restore failed" (some err)), op, w)
        | .ok summary =>
          (none, { op with
            Op := .OperationRestore (some ⟨opts.Path, opts.Target, some summary⟩) }, w)

/-- How a call of `RestoreTask.Run` ends: it returns an error or nil, or it
invokes `repo.Config()` on the nil handle left by a failed `GetRepo`, a nil
pointer dereference. -/
inductive RunResult where
  | returned (err : Option GoError)
  | nilRepoDereference

/-- The method `RestoreTask.Run`.  Besides its result, the task state and the
world, the result lists the invocations of `ExecuteHooks` made by this call. -/
def RestoreTask.Run {τ : Type} (b : TaskWithOperation τ) (orch : Orchestrator) (clock : Clock)
    (isPrint : PrintTable) (t : RestoreTask τ) (w : World) : RunResult × List HookCall × τ × World :=
  if t.restoreOpts.SnapshotId = "" ∨ t.restoreOpts.Path = "" ∨ t.restoreOpts.Target = "" then
    (.returned (some (.errorString "snapshotId, path, and target are required")), [], t.base, w)
  else
    match b.runWithOpAndContext t.base (restoreDo orch clock isPrint t.restoreOpts) w with
    | (some err, base, w) =>
      if t.restoreOpts.RepoId ≠ "" then
        match orch.GetRepo t.restoreOpts.RepoId with
        | .error _ => (.nilRepoDereference, [], base, w)
        | .ok repo =>
          let call : HookCall := {
            repo := repo.Config,
            plan := none,
            conditions := [.CONDITION_ANY_ERROR],
            vars := {
              Task := t.Name,
              Error := err.Error,
              SnapshotId := t.restoreOpts.SnapshotId } }
          match orch.ExecuteHooks call with
          | _ => (.returned (some err), [call], base, w)
      else (.returned (some err), [], base, w)
    | (none, base, w) => (.returned none, [], base, w)

/-- Modelled from the spec: the method `setOperation` of `TaskWithOperation`,
which is declared outside the translated files.  The spec says that the first
`Next` call creates the pending Operation record: the operation is added to the
operation log and kept as the operation of the task. -/
def specSetOperation (log : OpLog) (_cur : Option Operation) (op : Operation) (w : World) :
    Option GoError × Option Operation × World :=
  match oplogAdd log op w with
  | (.error err, w) => (some err, none, w)
  | (.ok op, w) => (none, some op, w)

/-- Modelled from the spec: the method `runWithOpAndContext` of
`TaskWithOperation`, which is declared outside the translated files.  It
validates that the task has an Operation, moves it from `PENDING` or `UNKNOWN`
to `INPROGRESS`, invokes the function, then stamps the end time, sets `SUCCESS`
or `ERROR` with the error text as `DisplayMessage`, issues the final `Update`,
and surfaces both the error of the function and the error of that `Update`. -/
def specRunWithOpAndContext (log : OpLog) (clock : Clock) (cur : Option Operation)
    (fn : DoFn) (w : World) : Option GoError × Option Operation × World :=
  match cur with
  | none => (some (.errorString "task has no operation"), none, w)
  | some op =>
    let op := if op.Status = .STATUS_PENDING ∨ op.Status = .STATUS_UNKNOWN
      then { op with Status := .STATUS_INPROGRESS } else op
    match fn op w with
    | (err, op, w) =>
      let (now, w) := curTimeMillis clock w
      let op := match err with
        | some e => { op with
            Status := .STATUS_ERROR, DisplayMessage := e.Error, UnixTimeEndMs := now }
        | none => { op with Status := .STATUS_SUCCESS, UnixTimeEndMs := now }
      match oplogUpdate log op w, err with
      | (some u, w), some e =>
        (some (multierrorAppend e (.wrapError "failed to update operation in oplog" (some u))),
          some op, w)
      | (some u, w), none =>
        (some (.wrapError "failed to update operation in oplog" (some u)), some op, w)
      | (none, w), err => (err, some op, w)

/-- The operation binding described by the spec, over a given operation log
and clock. -/
def specBinding (log : OpLog) (clock : Clock) : TaskWithOperation (Option Operation) :=
  { setOperation := specSetOperation log,
    runWithOpAndContext := specRunWithOpAndContext log clock }

/-! ## Tasks and the scheduling loop -/

/-- The interface `Task` of `tasks.go`, for a task whose mutable state has type
`σ`: `Next` and `Run` may both change that state. -/
structure Task (σ : Type) where
  Name : String
  Next : Time → σ → Option Time × σ
  Run : σ → Option GoError × σ

/-- The task scheduled by `TestTaskRescheduling`: `onNext` hands back the time
it is given while `count < 10`, `onRun` counts its calls.  The state is the pair
of the captured variables `count` and `ranTimes`.  (At the tenth run `onRun`
also cancels the context of the loop, which is not part of this model.) -/
def reschedulingTestTask : Task (Nat × Nat) :=
  { Name := "test",
    Next := fun t s =>
      match s with
      | (count, ranTimes) =>
        if count < 10 then (some t, (count + 1, ranTimes)) else (none, (count, ranTimes)),
    Run := fun s =>
      match s with
      | (count, ranTimes) => (none, (count, ranTimes + 1)) }

/-- Modelled from the spec: an entry of the TaskQueue, which is declared outside
the translated files.  An entry wraps a task (with its state) with its current
next run time and priority; `seq` is the insertion order. -/
structure QueueEntry (σ : Type) where
  task : Task σ
  state : σ
  priority : Int
  nextRunTime : Time
  seq : Nat

/-- What the scheduling loop did, in order: a call of `Next` with its result,
or a call of `Run` for the entry that was due at `due`, made in the pass of the
loop that read the clock at `read` and woke at `woke`. -/
inductive SchedEvent where
  | next (name : String) (result : Option Time)
  | run (name : String) (due : Time) (read : Time) (woke : Time)
  deriving DecidableEq, Repr

/-- Modelled from the spec: the state of the Orchestrator's scheduling side,
which is declared outside the translated files: the TaskQueue, the insertion
counter, the number of clock readings taken, the record of what was done, and
the tasks that are not, or no longer, in the queue, each with its name and the
state it was left in. -/
structure Scheduler (σ : Type) where
  queue : List (QueueEntry σ) := []
  seq : Nat := 0
  tick : Nat := 0
  events : List SchedEvent := []
  dropped : List (String × σ) := []

/-- Modelled from the spec: `Push(task, priority, nextRunTime)` of the
TaskQueue inserts an entry; duplicates are allowed. -/
def Scheduler.Push {σ : Type} (s : Scheduler σ) (task : Task σ) (state : σ) (priority : Int)
    (nextRunTime : Time) : Scheduler σ :=
  { s with
    queue := s.queue ++ [⟨task, state, priority, nextRunTime, s.seq⟩],
    seq := s.seq + 1 }

/-- Modelled from the spec: `PeekDeadline()` of the TaskQueue returns the
earliest next run time across all entries, or absent if the queue is empty. -/
def PeekDeadline {σ : Type} (queue : List (QueueEntry σ)) : Option Time :=
  queue.foldl (fun acc e =>
    match acc with
    | none => some e.nextRunTime
    | some m => some (min m e.nextRunTime)) none

/-- Modelled from the spec: the order in which `PopReady` returns ready
entries: higher priority first, ties broken by the earlier next run time. -/
def runsBefore {σ : Type} (a b : QueueEntry σ) : Prop :=
  b.priority < a.priority ∨ (a.priority = b.priority ∧ a.nextRunTime ≤ b.nextRunTime)

instance {σ : Type} : DecidableRel (@runsBefore σ) := fun a b => by
  unfold runsBefore
  exact inferInstance

/-- Modelled from the spec: `PopReady(now)` of the TaskQueue removes and
returns all entries whose next run time is at most `now`, ordered by priority
(higher first), then by earlier next run time, then by insertion order; the
second component is the queue that remains. -/
def PopReady {σ : Type} (now : Time) (queue : List (QueueEntry σ)) :
    List (QueueEntry σ) × List (QueueEntry σ) :=
  ((queue.filter fun e => e.nextRunTime ≤ now).insertionSort runsBefore,
    queue.filter fun e => ¬ e.nextRunTime ≤ now)

/-- Modelled from the spec: `ScheduleTask(task, priority)` computes
`task.Next(now)`; if absent the task is never enqueued, otherwise it is pushed
into the TaskQueue. -/
def Scheduler.ScheduleTask {σ : Type} (clock : Clock) (s : Scheduler σ) (task : Task σ)
    (state : σ) (priority : Int) : Scheduler σ :=
  let now := clock s.tick
  let s := { s with tick := s.tick + 1 }
  match task.Next now state with
  | (none, state) =>
    { s with
      events := s.events ++ [SchedEvent.next task.Name none],
      dropped := s.dropped ++ [(task.Name, state)] }
  | (some t, state) =>
    ({ s with events := s.events ++ [SchedEvent.next task.Name (some t)] }).Push task state
      priority t

/-- Modelled from the spec: step 4 of the loop for one ready entry, in a pass
that read the clock at `read` and woke at `now`: execute `Run`, whose error is
logged and otherwise ignored, then call `Next(now)` with the time it is by then;
if a time is returned the task is pushed back with that time, otherwise
dropped. -/
def Scheduler.execute {σ : Type} (clock : Clock) (read now : Time) (s : Scheduler σ)
    (e : QueueEntry σ) : Scheduler σ :=
  match e.task.Run e.state with
  | (_, state) =>
    let s := { s with
      events := s.events ++ [SchedEvent.run e.task.Name e.nextRunTime read now] }
    let nextNow := max (clock s.tick) now
    let s := { s with tick := s.tick + 1 }
    match e.task.Next nextNow state with
    | (none, state) =>
      { s with
        events := s.events ++ [SchedEvent.next e.task.Name none],
        dropped := s.dropped ++ [(e.task.Name, state)] }
    | (some t, state) =>
      ({ s with events := s.events ++ [SchedEvent.next e.task.Name (some t)] }).Push e.task
        state e.priority t

/-- Modelled from the spec: one pass of the loop body of the Orchestrator's
`Run`.  With an empty queue the loop stays blocked (`none`).  Otherwise it sleeps
until the deadline (it wakes at the deadline or later, never earlier), pops all
ready tasks and executes each of them. -/
def Scheduler.step {σ : Type} (clock : Clock) (s : Scheduler σ) : Option (Scheduler σ) :=
  match PeekDeadline s.queue with
  | none => none
  | some deadline =>
    let read := clock s.tick
    let now := max read deadline
    match PopReady now s.queue with
    | (ready, rest) =>
      some (ready.foldl (Scheduler.execute clock read now)
        { s with queue := rest, tick := s.tick + 1 })

/-- Modelled from the spec: the loop of the Orchestrator's `Run`, for at most
`fuel` passes of its body while the context is not cancelled; it stops early
when the queue is empty, where the loop blocks until something is scheduled. -/
def Scheduler.Run {σ : Type} (clock : Clock) : Nat → Scheduler σ → Scheduler σ
  | 0, s => s
  | fuel + 1, s =>
    match Scheduler.step clock s with
    | none => s
    | some s => Scheduler.Run clock fuel s

/-! ## Observations used in the statements -/

/-- The operation as `WithOperation` hands it to `do` once `Add` has assigned
the id `id`: a status `UNKNOWN` has become `INPROGRESS`. -/
def begun (op : Operation) (id : Int) : Operation :=
  if op.Status = .STATUS_UNKNOWN then { op with Id := id, Status := .STATUS_INPROGRESS }
  else { op with Id := id }

/-- The lists of operations handed to `BulkAdd`, call by call. -/
def bulkAdded (w : World) : List (List Operation) :=
  w.calls.filterMap fun c =>
    match c.call with
    | .BulkAdd ops => some ops
    | _ => none

/-- The statuses of the operations handed to `Update`, call by call. -/
def updatedStatuses (w : World) : List OperationStatus :=
  w.calls.filterMap fun c =>
    match c.call with
    | .Update op => some op.Status
    | _ => none

/-- The operation `backupHelper` creates, given the reading of the clock it
takes for the start time. -/
def backupOperation (plan : Plan) (start : Time) : Operation :=
  { PlanId := plan.Id,
    RepoId := plan.Repo,
    UnixTimeStartMs := millisOf start,
    Status := .STATUS_INPROGRESS,
    Op := .OperationBackup none }

/-- The Operation of a backup execution once `Add` has assigned it the id `id`,
with `last` as the `LastStatus` of its payload: every other field is as
`backupHelper` created it. -/
def trackedBackup (plan : Plan) (start : Time) (id : Int) (last : Option BackupProgressEntry) :
    Operation :=
  { backupOperation plan start with Id := id, Op := .OperationBackup last }

/-- The three ways in which the closure of `backupHelper` fails with `e`: the
repo cannot be resolved, `repo.Backup` fails, or the update of the operation log
with the summary fails. -/
def backupFailure (orchestrator : Orchestrator) (isPrint : PrintTable) (plan : Plan)
    (e : GoError) : Prop :=
  (∃ x, orchestrator.GetRepo plan.Repo = .error x ∧
    e = .wrapError ("couldn't get repo " ++ strconvQuote isPrint plan.Repo) (some x)) ∨
  (∃ repo x, orchestrator.GetRepo plan.Repo = .ok repo ∧ (repo.Backup plan).2 = .error x ∧
    e = .wrapError ("repo.Backup for repo " ++ strconvQuote isPrint plan.Repo) (some x)) ∨
  (∃ repo summary x, orchestrator.GetRepo plan.Repo = .ok repo ∧
    (repo.Backup plan).2 = .ok summary ∧
    e = .errorString ("update oplog with summary for backup: " ++ GoError.Error x))

/-- What the caller of `Run` observes: the text of the returned error (`some
none` for a nil error), or `none` when `Run` does not return. -/
def RunResult.observed : RunResult → Option (Option String)
  | .returned err => some (err.map GoError.Error)
  | .nilRepoDereference => none

/-- The invocation of the hook executor that the error path of `Run` makes. -/
def errorHookCall {τ : Type} (t : RestoreTask τ) (repo : Repo) (err : GoError) : HookCall :=
  { repo := repo.Config,
    plan := none,
    conditions := [.CONDITION_ANY_ERROR],
    vars := { Task := t.Name, Error := err.Error, SnapshotId := t.restoreOpts.SnapshotId } }

/-- The operation that the first `Next` of a restore task hands to
`setOperation`. -/
def pendingOperation (timeToUnixMillis : Time → Int) (opts : RestoreTaskOpts) (atTime : Time) :
    Operation :=
  { PlanId := opts.PlanId,
    RepoId := opts.RepoId,
    SnapshotId := opts.SnapshotId,
    UnixTimeStartMs := timeToUnixMillis atTime,
    Status := .STATUS_PENDING,
    Op := .OperationRestore none }

/-- The task an event is about. -/
def SchedEvent.name : SchedEvent → String
  | .next name _ => name
  | .run name _ _ _ => name

/-- The events that are about the task called `name`, in order. -/
def eventsOf (name : String) (events : List SchedEvent) : List SchedEvent :=
  events.filter fun ev => ev.name = name

/-- The entries of the queue that hold a task called `name`. -/
def entriesOf {σ : Type} (name : String) (queue : List (QueueEntry σ)) : List (QueueEntry σ) :=
  queue.filter fun e => e.task.Name = name

/-- The states in which tasks called `name` were left when they were dropped. -/
def droppedOf {σ : Type} (name : String) (dropped : List (String × σ)) : List σ :=
  (dropped.filter fun d => d.1 = name).map fun d => d.2

/-- The events of a task whose `Next` produced the times in `rounds`, in order,
and then answered absent: each produced time `t` is followed by the one run made
for it, in the pass that read the clock at `r` and woke at the later of `r` and
`t`. -/
def rescheduleEvents (name : String) (rounds : List (Time × Time)) : List SchedEvent :=
  rounds.flatMap (fun p =>
      [SchedEvent.next name (some p.1), SchedEvent.run name p.1 p.2 (max p.2 p.1)]) ++
    [SchedEvent.next name none]

/-- The state of a task after one `Run` followed by one `Next` for each element
of `nows`, the times at which `Next` was asked. -/
def afterRounds {σ : Type} (task : Task σ) (nows : List Time) (state : σ) : σ :=
  nows.foldl (fun s now => (task.Next now (task.Run s).2).2) state

/-- The scheduler after `task` was scheduled on `s` and the loop was driven for
at most `fuel` passes. -/
def driven {σ : Type} (clock : Clock) (fuel : Nat) (s : Scheduler σ) (task : Task σ) (state : σ)
    (priority : Int) : Scheduler σ :=
  Scheduler.Run clock fuel (Scheduler.ScheduleTask clock s task state priority)

/-- The calls of `Run` among the events, as the due times they were made for. -/
def runsOf (events : List SchedEvent) : List Time :=
  events.filterMap fun ev =>
    match ev with
    | .run _ due _ _ => some due
    | .next _ _ => none

/-! ## Concrete collaborators used for evaluation -/

/-- An operation log in which every call succeeds; it assigns the id 1 and
reports every snapshot as not indexed (`-1`). -/
def okLog : OpLog :=
  { Add := fun _ _ => .ok 1,
    Update := fun _ _ => none,
    BulkAdd := fun _ _ => none,
    HasIndexedSnapshot := fun _ _ => .ok (-1) }

/-- An operation log whose `Update` always fails. -/
def failingUpdateLog : OpLog :=
  { okLog with Update := fun _ _ => some (.errorString "disk full") }

/-- An operation log whose `Add` always fails. -/
def failingAddLog : OpLog :=
  { okLog with Add := fun _ _ => .error (.errorString "disk full") }

/-- The table `unicode.IsPrint` on Latin-1: the printable ASCII characters and
the runes from U+00A1 to U+00FF other than the soft hyphen U+00AD.  The runes
above U+00FF, which no example uses, are left as not printable. -/
def latin1IsPrint : PrintTable := fun c =>
  (32 ≤ c.toNat ∧ c.toNat < 127) ∨ (161 ≤ c.toNat ∧ c.toNat ≤ 255 ∧ c.toNat ≠ 173)

/-- A clock whose n-th reading is n seconds after the epoch. -/
def secondsClock : Clock := fun n => 1000000000 * (n : Int)

/-- A closure `do` that succeeds and leaves the operation alone. -/
def idleDo : DoFn := fun op w => (none, op, w)

/-- A closure `do` that fails with the error `boom`. -/
def failingDo : DoFn := fun op w => (some (.errorString "boom"), op, w)

/-- An operation log in which the snapshot `s1` is already indexed (by the
operation 7) and every other snapshot is not indexed (`-1`). -/
def partlyIndexedLog : OpLog :=
  { okLog with HasIndexedSnapshot := fun _ id => if id = "s1" then .ok 7 else .ok (-1) }

/-- A repo with two snapshots, `s1` and `s2`, whose backup delivers two progress
entries and succeeds. -/
def exampleRepo : Repo :=
  { Config := ⟨"repo"⟩,
    Backup := fun _ => ([⟨"10%"⟩, ⟨"50%"⟩], .ok ⟨"summary"⟩),
    SnapshotsForPlan := fun _ => .ok [⟨"s1"⟩, ⟨"s2"⟩],
    Restore := fun _ _ _ => ([], .ok ⟨"restored"⟩) }

/-- A plan for the repo `repo`. -/
def examplePlan : Plan := { Id := "plan", Repo := "repo" }

/-- An orchestrator over `exampleRepo` whose log has `s1` indexed already. -/
def partlyIndexedOrchestrator : Orchestrator :=
  { oplog := partlyIndexedLog, GetRepo := fun _ => .ok exampleRepo, ExecuteHooks := fun _ => none }

/-- An orchestrator whose repo backs up fine but cannot list its snapshots. -/
def noSnapshotsOrchestrator : Orchestrator :=
  { oplog := okLog,
    GetRepo := fun _ =>
      .ok { exampleRepo with SnapshotsForPlan := fun _ => .error (.errorString "boom") },
    ExecuteHooks := fun _ => none }

/-- An orchestrator whose repo fails to back up. -/
def failingBackupOrchestrator : Orchestrator :=
  { oplog := okLog,
    GetRepo := fun _ =>
      .ok { exampleRepo with Backup := fun _ => ([], .error (.errorString "boom")) },
    ExecuteHooks := fun _ => none }

/-- A clock whose n-th reading is n times 150 ms after the epoch. -/
def slowClock : Clock := fun n => 150000000 * (n : Int)

/-- Restore options with every field set, for the repo `repo`. -/
def exampleRestoreOpts : RestoreTaskOpts :=
  { RepoId := "repo", PlanId := "plan", SnapshotId := "snap", Path := "/data", Target := "/out" }

/-- An orchestrator that knows no repo: every lookup fails. -/
def unknownRepoOrchestrator : Orchestrator :=
  { oplog := okLog,
    GetRepo := fun id => .error (.errorString ("repo " ++ id ++ " not found")),
    ExecuteHooks := fun _ => none }

/-- An orchestrator whose repo fails to restore and whose hooks fail too. -/
def failingRestoreOrchestrator : Orchestrator :=
  { oplog := okLog,
    GetRepo := fun _ =>
      .ok { exampleRepo with Restore := fun _ _ _ => ([], .error (.errorString "boom")) },
    ExecuteHooks := fun _ => some (.errorString "hook failed") }

/-- The helper `timeToUnixMillis`, as whole milliseconds since the epoch. -/
def exampleTimeToUnixMillis : Time → Int := fun t => t / 1000000

/-- The pending operation that `Next` creates for `exampleRestoreOpts` at time
7 s, with the id 1 assigned by the operation log. -/
def examplePendingOperation : Operation :=
  { Id := 1,
    PlanId := "plan",
    RepoId := "repo",
    SnapshotId := "snap",
    UnixTimeStartMs := 7000,
    Status := .STATUS_PENDING,
    Op := .OperationRestore none }

/-- A restore task after its first `Next`: the time is consumed and the pending
operation is bound. -/
def scheduledRestoreTask (opts : RestoreTaskOpts) : RestoreTask (Option Operation) :=
  { base := some examplePendingOperation, restoreOpts := opts, atTime := none }

/-- A recurring task, as a scheduled backup is: its `Next` always answers with
a time three seconds after the one it is asked with, and its `Run` counts. -/
def recurringTask : Task (Nat × Nat) :=
  { Name := "recurring",
    Next := fun t s => (some (t + 3 * Second), s),
    Run := fun s => (none, (s.1, s.2 + 1)) }

/-- An orchestrator on which the recurring task is already scheduled, with a
higher priority than the default. -/
def busyScheduler : Scheduler (Nat × Nat) :=
  Scheduler.ScheduleTask secondsClock {} recurringTask (0, 0) 5

/-! ## Theorems -/

theorem WithOperation_of_add_ok (log : OpLog) (clock : Clock) (op : Operation) (doFn : DoFn)
    (w : World) (id : Int) (err : Option GoError) (op1 : Operation) (w1 : World)
    (hadd : log.Add w.calls op = .ok id)
    (hdo : doFn (begun op id) (w.log (.Add op)) = (err, op1, w1)) :
    WithOperation log clock op doFn w =
      let op2 : Operation := match err with
        | some e => { op1 with Status := .STATUS_ERROR, DisplayMessage := e.Error }
        | none => op1
      let op3 : Operation := { op2 with UnixTimeEndMs := millisOf (clock w1.tick) }
      let op4 : Operation :=
        if op3.Status = .STATUS_INPROGRESS then { op3 with Status := .STATUS_SUCCESS } else op3
      let w2 : World := { w1 with tick := w1.tick + 1 }
      (match err with
        | some e => some (multierrorAppend e
            (.wrapError "failed to update operation in oplog" (log.Update w2.calls op4)))
        | none => none,
       op4, w2.log (.Update op4)) := by
  have hb : (if op.Status = .STATUS_UNKNOWN
      then ({ ({ op with Id := id } : Operation) with Status := .STATUS_INPROGRESS } : Operation)
      else { op with Id := id }) = begun op id := by
    unfold begun; split <;> rfl
  unfold WithOperation oplogAdd
  simp only [hadd]
  simp only [hb, hdo, curTimeMillis, timeNow, oplogUpdate]
  cases err <;> rfl

/-- C1 (evaluation of the defect): with an operation log whose `Add` succeeds
and whose `Update` fails, and a `do` that returns no error, `WithOperation`
issues the finalizing `Update`, that `Update` fails with `disk full`, and
`WithOperation` nevertheless returns nil: the update error is not surfaced. -/
theorem WithOperation_drops_update_error :
    (WithOperation failingUpdateLog secondsClock {} idleDo {}).2.2.calls.getLast? =
        some ⟨1, .Update { Id := 1, Status := .STATUS_SUCCESS }⟩ ∧
      (failingUpdateLog.Update [⟨0, .Add {}⟩]
        { Id := 1, Status := .STATUS_SUCCESS }).map GoError.Error = some "disk full" ∧
      (WithOperation failingUpdateLog secondsClock {} idleDo {}).1.isNone = true := by
  refine ⟨by decide, by decide, by decide⟩

/-- C3 (as stated, refuted): an operation that enters `WithOperation` with
status `PENDING`, with `Add` succeeding and `do` returning no error and leaving
the status alone, is handed to the finalizing `Update` with status `PENDING`,
not `SUCCESS`. -/
theorem WithOperation_pending_stays_pending :
    (okLog.Add [] { Status := .STATUS_PENDING }).toOption = some 1 ∧
      (idleDo (begun { Status := .STATUS_PENDING } 1) {}).1.isNone = true ∧
      (WithOperation okLog secondsClock { Status := .STATUS_PENDING } idleDo {}).2.2.calls.getLast? =
        some ⟨1, .Update { Id := 1, Status := .STATUS_PENDING }⟩ ∧
      OperationStatus.STATUS_PENDING ≠ OperationStatus.STATUS_SUCCESS := by
  refine ⟨by decide, by decide, by decide, by decide⟩

/-- C3 (amended): for an operation whose status on entry is `UNKNOWN` or
`INPROGRESS`, if `Add` succeeds and `do` returns no error and leaves the status
as it received it, then the last call to the operation log is the finalizing
`Update`, and the operation handed to it has status `SUCCESS` and the end
timestamp read from the clock after `do` returned. -/
theorem WithOperation_success_finalized (log : OpLog) (clock : Clock) (op : Operation)
    (doFn : DoFn) (w : World) (id : Int) (op1 : Operation) (w1 : World)
    (hst : op.Status = .STATUS_UNKNOWN ∨ op.Status = .STATUS_INPROGRESS)
    (hadd : log.Add w.calls op = .ok id)
    (hdo : doFn (begun op id) (w.log (.Add op)) = (none, op1, w1))
    (hkeep : op1.Status = (begun op id).Status) :
    ∃ final : Operation,
      final = { op1 with
        Status := .STATUS_SUCCESS, UnixTimeEndMs := millisOf (clock w1.tick) } ∧
      (WithOperation log clock op doFn w).2.2.calls =
        w1.calls ++ [⟨w1.tick + 1, .Update final⟩] ∧
      (WithOperation log clock op doFn w).2.1 = final := by
  have hin : op1.Status = .STATUS_INPROGRESS := by
    rw [hkeep]
    unfold begun
    rcases hst with h | h <;> simp [h]
  rw [WithOperation_of_add_ok log clock op doFn w id none op1 w1 hadd hdo]
  simp [hin, World.log]

/-- C3 (amended), at a concrete input: status `UNKNOWN` on entry. -/
theorem WithOperation_success_finalized_witness :
    ∃ final : Operation,
      final = { begun {} 1 with
        Status := .STATUS_SUCCESS,
        UnixTimeEndMs := millisOf (secondsClock (World.log {} (.Add {})).tick) } ∧
      (WithOperation okLog secondsClock {} idleDo {}).2.2.calls =
        (World.log {} (.Add {})).calls ++
          [⟨(World.log {} (.Add {})).tick + 1, .Update final⟩] ∧
      (WithOperation okLog secondsClock {} idleDo {}).2.1 = final :=
  WithOperation_success_finalized okLog secondsClock {} idleDo {} 1 (begun {} 1)
    (World.log {} (.Add {})) (Or.inl rfl) rfl rfl rfl

/-- C4: for every operation and every `do`, if `Add` succeeds and `do` returns
an error `e`, then the last call to the operation log is the finalizing
`Update`, the operation handed to it has status `ERROR`, `DisplayMessage` equal
to the text of `e` and the end timestamp read from the clock after `do`
returned, and `WithOperation` returns a non-nil error, the multierror made of
`e` followed by the wrapped result of that `Update`. -/
theorem WithOperation_error_finalized (log : OpLog) (clock : Clock) (op : Operation)
    (doFn : DoFn) (w : World) (id : Int) (e : GoError) (op1 : Operation) (w1 : World)
    (hadd : log.Add w.calls op = .ok id)
    (hdo : doFn (begun op id) (w.log (.Add op)) = (some e, op1, w1)) :
    ∃ final : Operation,
      final = { op1 with
        Status := .STATUS_ERROR,
        DisplayMessage := e.Error,
        UnixTimeEndMs := millisOf (clock w1.tick) } ∧
      (WithOperation log clock op doFn w).2.2.calls =
        w1.calls ++ [⟨w1.tick + 1, .Update final⟩] ∧
      (WithOperation log clock op doFn w).1 =
        some (.multi (e.flatten ++
          [.wrapError "failed to update operation in oplog" (log.Update w1.calls final)])) := by
  rw [WithOperation_of_add_ok log clock op doFn w id (some e) op1 w1 hadd hdo]
  simp [World.log, multierrorAppend, GoError.flatten]

/-- C4, at a concrete input: a `do` that fails with `boom`. -/
theorem WithOperation_error_finalized_witness :
    ∃ final : Operation,
      final = { begun {} 1 with
        Status := .STATUS_ERROR,
        DisplayMessage := (GoError.errorString "boom").Error,
        UnixTimeEndMs := millisOf (secondsClock (World.log {} (.Add {})).tick) } ∧
      (WithOperation okLog secondsClock {} failingDo {}).2.2.calls =
        (World.log {} (.Add {})).calls ++
          [⟨(World.log {} (.Add {})).tick + 1, .Update final⟩] ∧
      (WithOperation okLog secondsClock {} failingDo {}).1 =
        some (.multi ((GoError.errorString "boom").flatten ++
          [.wrapError "failed to update operation in oplog"
            (okLog.Update (World.log {} (.Add {})).calls final)])) :=
  WithOperation_error_finalized okLog secondsClock {} failingDo {} 1 (.errorString "boom")
    (begun {} 1) (World.log {} (.Add {})) rfl rfl

/-- C2 (evaluation of the defect): the repo has the snapshots `s1` and `s2`;
the operation log reports `s1` as indexed (operation 7) and `s2` as not indexed
(`-1`).  `indexSnapshotsHelper` hands to `BulkAdd` one operation, for the
already indexed `s1`, and none for `s2`. -/
theorem indexSnapshotsHelper_indexes_the_indexed :
    (partlyIndexedLog.HasIndexedSnapshot [] "s1").toOption = some 7 ∧
      (partlyIndexedLog.HasIndexedSnapshot [] "s2").toOption = some (-1) ∧
      bulkAdded (indexSnapshotsHelper partlyIndexedOrchestrator secondsClock latin1IsPrint examplePlan {}).2 =
        [[{ RepoId := "repo",
            PlanId := "plan",
            UnixTimeStartMs := 1000,
            UnixTimeEndMs := 1000,
            Status := .STATUS_SUCCESS,
            Op := .OperationIndexSnapshot ⟨"s1"⟩ }]] := by
  refine ⟨by decide, by decide, by decide⟩

/-- C6 (as stated, refuted): the backup succeeds and the listing of snapshots
for re-indexing fails.  `backupHelper` returns an error, and the Operation of
the execution was finalized with status `SUCCESS`: no `Update` carried the status
`ERROR`. -/
theorem backupHelper_reindex_failure_leaves_success :
    (backupHelper noSnapshotsOrchestrator secondsClock latin1IsPrint examplePlan {}).1.map GoError.Error =
        some "reindexing snapshots after backup operation: get snapshots for plan \"plan\": boom" ∧
      updatedStatuses (backupHelper noSnapshotsOrchestrator secondsClock latin1IsPrint examplePlan {}).2 =
        [.STATUS_INPROGRESS, .STATUS_INPROGRESS, .STATUS_INPROGRESS, .STATUS_SUCCESS] := by
  refine ⟨by decide, by decide⟩

theorem progressCallback_fold_tracked (orchestrator : Orchestrator) (clock : Clock)
    (base : Operation) (entries : List BackupProgressEntry) :
    ∀ (lastSent : Time) (l : Option BackupProgressEntry) (w : World),
      ∃ (l1 : Option BackupProgressEntry) (issued : List Logged),
        (entries.foldl (progressCallback orchestrator clock)
          (lastSent, { base with Op := .OperationBackup l }, w)).2.1 =
            { base with Op := .OperationBackup l1 } ∧
        (entries.foldl (progressCallback orchestrator clock)
          (lastSent, { base with Op := .OperationBackup l }, w)).2.2.calls = w.calls ++ issued ∧
        ∀ c ∈ issued, ∃ l2, c.call = .Update { base with Op := .OperationBackup l2 } := by
  induction entries with
  | nil =>
    intro lastSent l w
    exact ⟨l, [], rfl, by simp, by simp⟩
  | cons entry rest ih =>
    intro lastSent l w
    rw [List.foldl_cons]
    by_cases hlt : Time.Sub (clock w.tick) lastSent < 200 * Millisecond
    · have hstep : progressCallback orchestrator clock
          (lastSent, { base with Op := .OperationBackup l }, w) entry =
          (lastSent, { base with Op := .OperationBackup l }, { w with tick := w.tick + 1 }) := by
        simp [progressCallback, timeSince, timeNow, hlt]
      rw [hstep]
      exact ih lastSent l { w with tick := w.tick + 1 }
    · have hstep : progressCallback orchestrator clock
          (lastSent, { base with Op := .OperationBackup l }, w) entry =
          (clock (w.tick + 1), { base with Op := .OperationBackup (some entry) },
            World.log { w with tick := w.tick + 1 + 1 }
              (.Update { base with Op := .OperationBackup (some entry) })) := by
        simp [progressCallback, timeSince, timeNow, hlt, oplogUpdate]
      rw [hstep]
      obtain ⟨l1, issued, hop, hcalls, hupd⟩ := ih (clock (w.tick + 1)) (some entry)
        (World.log { w with tick := w.tick + 1 + 1 }
          (.Update { base with Op := .OperationBackup (some entry) }))
      refine ⟨l1, ⟨w.tick + 1 + 1, .Update { base with Op := .OperationBackup (some entry) }⟩ ::
        issued, hop, ?_, ?_⟩
      · rw [hcalls]; simp [World.log]
      · intro c hc
        rcases List.mem_cons.mp hc with rfl | hc
        · exact ⟨some entry, rfl⟩
        · exact hupd c hc

theorem backupDo_failure (orchestrator : Orchestrator) (clock : Clock) (isPrint : PrintTable)
    (plan : Plan) (startTime : Time) (base : Operation) (l : Option BackupProgressEntry)
    (w : World) (e : GoError) (op1 : Operation) (w1 : World)
    (hdo : backupDo orchestrator clock isPrint plan startTime
      { base with Op := .OperationBackup l } w = (some e, op1, w1)) :
    ∃ (l1 : Option BackupProgressEntry) (issued : List Logged),
      op1 = { base with Op := .OperationBackup l1 } ∧
      w1.calls = w.calls ++ issued ∧
      (∀ c ∈ issued, ∃ l2, c.call = .Update { base with Op := .OperationBackup l2 }) ∧
      backupFailure orchestrator isPrint plan e := by
  unfold backupDo at hdo
  cases hg : orchestrator.GetRepo plan.Repo with
  | error x =>
    rw [hg] at hdo
    simp only [Prod.mk.injEq, Option.some.injEq] at hdo
    obtain ⟨he, hop, hw⟩ := hdo
    exact ⟨l, [], hop.symm, by simp [hw], by simp, Or.inl ⟨x, hg, he.symm⟩⟩
  | ok repo =>
    rcases hB : repo.Backup plan with ⟨entries, result⟩
    obtain ⟨l1, issued, hop, hcalls, hupd⟩ :=
      progressCallback_fold_tracked orchestrator clock base entries
        (clock w.tick) l { w with tick := w.tick + 1 }
    rcases hF : entries.foldl (progressCallback orchestrator clock)
      (clock w.tick, { base with Op := .OperationBackup l }, { w with tick := w.tick + 1 })
      with ⟨ls, opF, wF⟩
    rw [hF] at hop hcalls
    simp only at hop hcalls
    subst hop
    rw [hg] at hdo
    simp only [hB, timeNow, hF] at hdo
    cases result with
    | error x =>
      simp only [Prod.mk.injEq, Option.some.injEq] at hdo
      obtain ⟨he, hop, hw⟩ := hdo
      exact ⟨l1, issued, hop.symm, by rw [← hw, hcalls], hupd,
        Or.inr (Or.inl ⟨repo, x, hg, by rw [hB], he.symm⟩)⟩
    | ok summary =>
      simp only [oplogUpdate] at hdo
      cases hU : orchestrator.oplog.Update wF.calls
          { base with Op := .OperationBackup (some summary) } with
      | none =>
        rw [hU] at hdo
        simp [timeSince, timeNow] at hdo
      | some x =>
        rw [hU] at hdo
        simp only [Prod.mk.injEq, Option.some.injEq] at hdo
        obtain ⟨he, hop, hw⟩ := hdo
        refine ⟨some summary, issued ++ [⟨wF.tick,
          .Update { base with Op := .OperationBackup (some summary) }⟩], hop.symm, ?_, ?_,
          Or.inr (Or.inr ⟨repo, summary, x, hg, by rw [hB], he.symm⟩)⟩
        · rw [← hw]; simp [World.log, hcalls]
        · intro c hc
          rcases List.mem_append.mp hc with hc | hc
          · exact hupd c hc
          · rw [List.mem_singleton] at hc
            exact ⟨some summary, by rw [hc]⟩

/-- C6 (amended): whenever `backupHelper` returns a `backup operation` error
after `oplog.Add` succeeded with the id `id`, the backup itself failed with some
error `e` (the repo could not be resolved, `repo.Backup` failed, or the update
with the summary failed); the calls to the operation log are the `Add` of the
Operation of this execution, then progress updates of that same Operation, then
the finalizing `Update` as the last call; the Operation handed to it is that
same Operation (id `id`, plan id, repo id and start time as created) with status
`ERROR`, `DisplayMessage` equal to the text of `e` and the end time read from the
clock right before; and the returned error wraps the multierror made of `e` and
the wrapped result of that `Update`. -/
theorem backupHelper_backup_failure_finalized (orchestrator : Orchestrator) (clock : Clock)
    (isPrint : PrintTable) (plan : Plan) (w : World) (id : Int) (inner : Option GoError)
    (hadd : orchestrator.oplog.Add w.calls (backupOperation plan (clock w.tick)) = .ok id)
    (herr : (backupHelper orchestrator clock isPrint plan w).1 =
      some (.wrapError "backup operation" inner)) :
    ∃ (e : GoError) (last : Option BackupProgressEntry) (progress : List Logged) (tick : Nat)
      (final : Operation),
      final = { trackedBackup plan (clock w.tick) id last with
        Status := .STATUS_ERROR,
        DisplayMessage := e.Error,
        UnixTimeEndMs := millisOf (clock tick) } ∧
      (backupHelper orchestrator clock isPrint plan w).2.calls =
        w.calls ++ ⟨w.tick + 2, .Add (backupOperation plan (clock w.tick))⟩ :: progress ++
          [⟨tick + 1, .Update final⟩] ∧
      (∀ c ∈ progress, ∃ l, c.call = .Update (trackedBackup plan (clock w.tick) id l)) ∧
      backupFailure orchestrator isPrint plan e ∧
      inner = some (.multi (e.flatten ++
        [.wrapError "failed to update operation in oplog"
          (orchestrator.oplog.Update
            (w.calls ++ ⟨w.tick + 2, .Add (backupOperation plan (clock w.tick))⟩ :: progress)
            final)])) := by
  have hbegun : begun (backupOperation plan (clock w.tick)) id =
      { ({ backupOperation plan (clock w.tick) with Id := id } : Operation) with
        Op := .OperationBackup none } := by
    simp [begun, backupOperation]
  rcases hdo : backupDo orchestrator clock isPrint plan (clock (w.tick + 1))
      (begun (backupOperation plan (clock w.tick)) id)
      (World.log { w with tick := w.tick + 1 + 1 } (.Add (backupOperation plan (clock w.tick))))
    with ⟨err, op1, w1⟩
  unfold backupHelper
  unfold backupHelper at herr
  simp only [curTimeMillis, timeNow] at herr ⊢
  cases err with
  | none =>
    exfalso
    have hw := WithOperation_of_add_ok orchestrator.oplog clock
      (backupOperation plan (clock w.tick))
      (backupDo orchestrator clock isPrint plan (clock (w.tick + 1)))
      { w with tick := w.tick + 1 + 1 } id none op1 w1 hadd hdo
    unfold backupOperation at hw
    rw [hw] at herr
    simp only at herr
    split at herr <;> simp at herr
  | some e =>
    have hw := WithOperation_of_add_ok orchestrator.oplog clock
      (backupOperation plan (clock w.tick))
      (backupDo orchestrator clock isPrint plan (clock (w.tick + 1)))
      { w with tick := w.tick + 1 + 1 } id (some e) op1 w1 hadd hdo
    rw [hbegun] at hdo
    obtain ⟨l1, issued, hop, hcalls, hupd, hcause⟩ :=
      backupDo_failure orchestrator clock isPrint plan (clock (w.tick + 1))
        { backupOperation plan (clock w.tick) with Id := id } none _ e op1 w1 hdo
    unfold backupOperation at hw
    rw [hw] at herr ⊢
    subst hop
    refine ⟨e, l1, issued, w1.tick, _, rfl, ?_, ?_, hcause, ?_⟩
    · simp [World.log, hcalls, trackedBackup, backupOperation]
    · intro c hc
      obtain ⟨l2, hl2⟩ := hupd c hc
      exact ⟨l2, by rw [hl2]; rfl⟩
    · have hcalls2 : w1.calls =
          w.calls ++ ⟨w.tick + 2, .Add (backupOperation plan (clock w.tick))⟩ :: issued := by
        rw [hcalls]; simp [World.log]
      rw [← hcalls2]
      simpa [multierrorAppend, GoError.flatten, trackedBackup, backupOperation] using herr.symm

/-- C6 (amended), at a concrete input: the repo fails to back up. -/
theorem backupHelper_backup_failure_finalized_witness :
    ∃ (e : GoError) (last : Option BackupProgressEntry) (progress : List Logged) (tick : Nat)
      (final : Operation),
      final = { trackedBackup examplePlan (secondsClock ({} : World).tick) 1 last with
        Status := .STATUS_ERROR,
        DisplayMessage := e.Error,
        UnixTimeEndMs := millisOf (secondsClock tick) } ∧
      (backupHelper failingBackupOrchestrator secondsClock latin1IsPrint examplePlan {}).2.calls =
        ({} : World).calls ++
          ⟨({} : World).tick + 2,
            .Add (backupOperation examplePlan (secondsClock ({} : World).tick))⟩ :: progress ++
          [⟨tick + 1, .Update final⟩] ∧
      (∀ c ∈ progress, ∃ l,
        c.call = .Update (trackedBackup examplePlan (secondsClock ({} : World).tick) 1 l)) ∧
      backupFailure failingBackupOrchestrator latin1IsPrint examplePlan e ∧
      some (GoError.multi
          [.wrapError "repo.Backup for repo \"repo\"" (some (.errorString "boom")),
            .wrapError "failed to update operation in oplog" none]) =
        some (.multi (e.flatten ++
          [.wrapError "failed to update operation in oplog"
            (failingBackupOrchestrator.oplog.Update
              (({} : World).calls ++
                ⟨({} : World).tick + 2,
                  .Add (backupOperation examplePlan (secondsClock ({} : World).tick))⟩ ::
                  progress)
              final)])) :=
  backupHelper_backup_failure_finalized failingBackupOrchestrator secondsClock latin1IsPrint
    examplePlan {} 1
    (some (.multi
      [.wrapError "repo.Backup for repo \"repo\"" (some (.errorString "boom")),
        .wrapError "failed to update operation in oplog" none])) rfl rfl

theorem not_sub_lt_debounce (t u : Time) (h : ¬ Time.Sub t u < 200 * Millisecond) :
    u + 200 * Millisecond ≤ t := by
  unfold Time.Sub maxDuration minDuration at h
  unfold Millisecond at h ⊢
  split_ifs at h with h1 h2
  · norm_num at h1
    linarith
  · exact absurd (by norm_num) h
  · linarith

/-- C8: for every sequence of progress entries delivered to the progress
callback of `backupHelper` under a non-decreasing clock, from any value of
`lastSent` (the start of the debounce clock): the calls the callback adds to
the operation log are all `Update`s, each is stamped (the clock reading taken
just before it) at least 200 ms after `lastSent`, and any two of them are
stamped at least 200 ms apart. -/
theorem progressCallback_debounced (orchestrator : Orchestrator) (clock : Clock)
    (hmono : Monotone clock) (entries : List BackupProgressEntry) :
    ∀ (lastSent : Time) (op : Operation) (w : World),
      ∃ issued : List Logged,
        (entries.foldl (progressCallback orchestrator clock) (lastSent, op, w)).2.2.calls =
          w.calls ++ issued ∧
        (∀ c ∈ issued, ∃ o, c.call = .Update o) ∧
        (∀ c ∈ issued, lastSent + 200 * Millisecond ≤ clock (c.tick - 1)) ∧
        issued.Pairwise fun a b => clock (a.tick - 1) + 200 * Millisecond ≤ clock (b.tick - 1) := by
  induction entries with
  | nil =>
    intro lastSent op w
    exact ⟨[], by simp, by simp, by simp, List.Pairwise.nil⟩
  | cons entry rest ih =>
    intro lastSent op w
    rw [List.foldl_cons]
    by_cases hlt : Time.Sub (clock w.tick) lastSent < 200 * Millisecond
    · have hstep : progressCallback orchestrator clock (lastSent, op, w) entry =
          (lastSent, op, { w with tick := w.tick + 1 }) := by
        simp [progressCallback, timeSince, timeNow, hlt]
      rw [hstep]
      exact ih lastSent op { w with tick := w.tick + 1 }
    · have hstep : progressCallback orchestrator clock (lastSent, op, w) entry =
          (clock (w.tick + 1), { op with Op := .OperationBackup (some entry) },
            World.log { w with tick := w.tick + 1 + 1 }
              (.Update { op with Op := .OperationBackup (some entry) })) := by
        simp [progressCallback, timeSince, timeNow, hlt, oplogUpdate]
      rw [hstep]
      obtain ⟨issued, hcalls, hupd, hafter, hpair⟩ :=
        ih (clock (w.tick + 1)) { op with Op := .OperationBackup (some entry) }
          (World.log { w with tick := w.tick + 1 + 1 }
            (.Update { op with Op := .OperationBackup (some entry) }))
      have hfirst : lastSent + 200 * Millisecond ≤ clock (w.tick + 1) :=
        le_trans (not_sub_lt_debounce _ _ hlt) (hmono (Nat.le_succ _))
      have hpos : (0 : Int) ≤ 200 * Millisecond := by unfold Millisecond; norm_num
      refine ⟨⟨w.tick + 1 + 1, .Update { op with Op := .OperationBackup (some entry) }⟩ :: issued,
        ?_, ?_, ?_, ?_⟩
      · rw [hcalls]; simp [World.log]
      · intro c hc
        rcases List.mem_cons.mp hc with rfl | hc
        · exact ⟨_, rfl⟩
        · exact hupd c hc
      · intro c hc
        rcases List.mem_cons.mp hc with rfl | hc
        · simpa using hfirst
        · have := hafter c hc
          linarith
      · refine List.Pairwise.cons ?_ hpair
        intro c hc
        simpa using hafter c hc

theorem slowClock_monotone : Monotone slowClock := by
  intro a b hab
  unfold slowClock
  have : (a : Int) ≤ (b : Int) := by exact_mod_cast hab
  linarith

/-- C8, at a concrete input: five entries delivered under a clock that advances
150 ms per reading; two of them are sent. -/
theorem progressCallback_debounced_witness :
    Monotone slowClock ∧
      ((([⟨"1"⟩, ⟨"2"⟩, ⟨"3"⟩, ⟨"4"⟩, ⟨"5"⟩] : List BackupProgressEntry).foldl
        (progressCallback partlyIndexedOrchestrator slowClock)
          (0, {}, {})).2.2.calls.map Logged.tick = [4, 7]) ∧
      ∃ issued : List Logged,
        (([⟨"1"⟩, ⟨"2"⟩, ⟨"3"⟩, ⟨"4"⟩, ⟨"5"⟩] : List BackupProgressEntry).foldl
          (progressCallback partlyIndexedOrchestrator slowClock)
            (0, {}, {})).2.2.calls = ({} : World).calls ++ issued ∧
        (∀ c ∈ issued, ∃ o, c.call = .Update o) ∧
        (∀ c ∈ issued, 0 + 200 * Millisecond ≤ slowClock (c.tick - 1)) ∧
        issued.Pairwise fun a b =>
          slowClock (a.tick - 1) + 200 * Millisecond ≤ slowClock (b.tick - 1) :=
  ⟨slowClock_monotone, by decide,
    progressCallback_debounced partlyIndexedOrchestrator slowClock slowClock_monotone
      [⟨"1"⟩, ⟨"2"⟩, ⟨"3"⟩, ⟨"4"⟩, ⟨"5"⟩] 0 {} {}⟩

/-- C5 (as stated, refuted): a restore task without a snapshot id.  `Run`
returns an error and the hook executor is not invoked. -/
theorem RestoreTask_Run_validation_error_no_hook :
    (RestoreTask.Run (specBinding okLog secondsClock) failingRestoreOrchestrator secondsClock latin1IsPrint
        (scheduledRestoreTask { exampleRestoreOpts with SnapshotId := "" }) {}).1.observed =
        some (some "snapshotId, path, and target are required") ∧
      (RestoreTask.Run (specBinding okLog secondsClock) failingRestoreOrchestrator secondsClock latin1IsPrint
        (scheduledRestoreTask { exampleRestoreOpts with SnapshotId := "" }) {}).2.1 = [] := by
  refine ⟨by decide, by decide⟩

/-- C5 (amended): whenever `Run` returns an error `e`: if `SnapshotId`, `Path`,
`Target` and `RepoId` are all non-empty, the repo id resolves to a repo and the
hook executor has been invoked exactly once, with the config of that repo, the
single condition `ANY_ERROR` and the variables `Task` = the name of the task,
`Error` = the text of `e` and `SnapshotId` = the configured snapshot id; if one
of the four is empty, the hook executor has not been invoked. -/
theorem RestoreTask_Run_error_hooks {τ : Type} (b : TaskWithOperation τ) (orch : Orchestrator)
    (clock : Clock) (isPrint : PrintTable) (t : RestoreTask τ) (w : World) (e : GoError)
    (hret : (RestoreTask.Run b orch clock isPrint t w).1 = .returned (some e)) :
    ((t.restoreOpts.SnapshotId ≠ "" ∧ t.restoreOpts.Path ≠ "" ∧ t.restoreOpts.Target ≠ "" ∧
        t.restoreOpts.RepoId ≠ "") →
      ∃ repo : Repo, orch.GetRepo t.restoreOpts.RepoId = .ok repo ∧
        (RestoreTask.Run b orch clock isPrint t w).2.1 = [errorHookCall t repo e]) ∧
    (¬ (t.restoreOpts.SnapshotId ≠ "" ∧ t.restoreOpts.Path ≠ "" ∧ t.restoreOpts.Target ≠ "" ∧
        t.restoreOpts.RepoId ≠ "") →
      (RestoreTask.Run b orch clock isPrint t w).2.1 = []) := by
  unfold RestoreTask.Run at hret ⊢
  by_cases hv : t.restoreOpts.SnapshotId = "" ∨ t.restoreOpts.Path = "" ∨
      t.restoreOpts.Target = ""
  · rw [if_pos hv]
    refine ⟨fun h => ?_, fun _ => rfl⟩
    rcases hv with h1 | h1 | h1
    · exact absurd h1 h.1
    · exact absurd h1 h.2.1
    · exact absurd h1 h.2.2.1
  · rw [if_neg hv] at hret ⊢
    have hv3 : t.restoreOpts.SnapshotId ≠ "" ∧ t.restoreOpts.Path ≠ "" ∧
        t.restoreOpts.Target ≠ "" := by
      refine ⟨fun h => hv (Or.inl h), fun h => hv (Or.inr (Or.inl h)),
        fun h => hv (Or.inr (Or.inr h))⟩
    rcases hb : b.runWithOpAndContext t.base (restoreDo orch clock isPrint t.restoreOpts) w
      with ⟨err, base, w1⟩
    rw [hb] at hret
    cases err with
    | none => simp at hret
    | some err =>
      by_cases hr : t.restoreOpts.RepoId = ""
      · simp only [hr, ne_eq, not_true_eq_false, and_false, if_false, false_implies, true_and,
          not_false_eq_true, true_implies]
      · simp only [ne_eq, hr, not_false_eq_true, if_true] at hret ⊢
        cases hg : orch.GetRepo t.restoreOpts.RepoId with
        | error x =>
          rw [hg] at hret
          simp at hret
        | ok repo =>
          rw [hg] at hret
          simp only [RunResult.returned.injEq, Option.some.injEq] at hret
          subst hret
          refine ⟨fun _ => ⟨repo, rfl, rfl⟩, fun h => absurd ⟨hv3.1, hv3.2.1, hv3.2.2, ?_⟩ h⟩
          exact trivial

/-- C5 (amended), at a concrete input: the restore of the repo fails. -/
theorem RestoreTask_Run_error_hooks_witness :
    (RestoreTask.Run (specBinding okLog secondsClock) failingRestoreOrchestrator secondsClock latin1IsPrint
        (scheduledRestoreTask exampleRestoreOpts) {}).1.observed =
        some (some "restore failed: boom") ∧
    ((exampleRestoreOpts.SnapshotId ≠ "" ∧ exampleRestoreOpts.Path ≠ "" ∧
        exampleRestoreOpts.Target ≠ "" ∧ exampleRestoreOpts.RepoId ≠ "") →
      ∃ repo : Repo, failingRestoreOrchestrator.GetRepo exampleRestoreOpts.RepoId = .ok repo ∧
        (RestoreTask.Run (specBinding okLog secondsClock) failingRestoreOrchestrator secondsClock latin1IsPrint
          (scheduledRestoreTask exampleRestoreOpts) {}).2.1 =
          [errorHookCall (scheduledRestoreTask exampleRestoreOpts) repo
            (.wrapError "restore failed" (some (.errorString "boom")))]) ∧
    (¬ (exampleRestoreOpts.SnapshotId ≠ "" ∧ exampleRestoreOpts.Path ≠ "" ∧
        exampleRestoreOpts.Target ≠ "" ∧ exampleRestoreOpts.RepoId ≠ "") →
      (RestoreTask.Run (specBinding okLog secondsClock) failingRestoreOrchestrator secondsClock latin1IsPrint
        (scheduledRestoreTask exampleRestoreOpts) {}).2.1 = []) :=
  ⟨by decide,
    RestoreTask_Run_error_hooks (specBinding okLog secondsClock) failingRestoreOrchestrator
      secondsClock latin1IsPrint (scheduledRestoreTask exampleRestoreOpts) {}
      (.wrapError "restore failed" (some (.errorString "boom"))) rfl⟩

/-- C7 (as stated, refuted): when `setOperation` fails (here because the
operation log refuses the `Add`), the first `Next` of a fresh one-off restore
task returns absent instead of the configured time 7 s. -/
theorem RestoreTask_Next_absent_when_setOperation_fails :
    (RestoreTask.Next (specBinding failingAddLog secondsClock) exampleTimeToUnixMillis
      (NewOneoffRestoreTask none exampleRestoreOpts 7000000000) 0 {}).1 = none ∧
    (RestoreTask.Next (specBinding failingAddLog secondsClock) exampleTimeToUnixMillis
      (NewOneoffRestoreTask none exampleRestoreOpts 7000000000) 0 {}).2.1 =
        [pendingOperation exampleTimeToUnixMillis exampleRestoreOpts 7000000000] := by
  refine ⟨by decide, by decide⟩

theorem RestoreTask_NextAll_consumed {τ : Type} (b : TaskWithOperation τ)
    (timeToUnixMillis : Time → Int) (nows : List Time) :
    ∀ (t : RestoreTask τ) (w : World), t.atTime = none →
      RestoreTask.NextAll b timeToUnixMillis nows t w = List.replicate nows.length (none, []) := by
  induction nows with
  | nil => intro t w _; rfl
  | cons now nows ih =>
    intro t w ht
    have hnext : RestoreTask.Next b timeToUnixMillis t now w = (none, [], t, w) := by
      unfold RestoreTask.Next
      rw [ht]
    rw [RestoreTask.NextAll, hnext]
    simp only [List.length_cons, List.replicate_succ, ih t w ht]

/-- C7 (amended): for every task built by `NewOneoffRestoreTask` with time
`atTime` and every sequence of `Next` calls with arbitrary `now` arguments: the
first call hands to `setOperation` exactly one Operation, with status `PENDING`,
the configured plan id, repo id and snapshot id and the start time
`timeToUnixMillis(atTime)`, and returns `atTime` if `setOperation` succeeds and
absent if it fails; every later call returns absent and hands no Operation to
`setOperation`. -/
theorem RestoreTask_NextAll_oneoff {τ : Type} (b : TaskWithOperation τ)
    (timeToUnixMillis : Time → Int) (base : τ) (opts : RestoreTaskOpts) (atTime : Time)
    (now : Time) (nows : List Time) (w : World) :
    RestoreTask.NextAll b timeToUnixMillis (now :: nows)
        (NewOneoffRestoreTask base opts atTime) w =
      (if (b.setOperation base (pendingOperation timeToUnixMillis opts atTime) w).1.isSome
          then none else some atTime,
        [pendingOperation timeToUnixMillis opts atTime]) ::
        List.replicate nows.length (none, []) := by
  rw [RestoreTask.NextAll]
  unfold RestoreTask.Next NewOneoffRestoreTask
  simp only
  rcases hs : b.setOperation base
      { PlanId := opts.PlanId, RepoId := opts.RepoId, SnapshotId := opts.SnapshotId,
        UnixTimeStartMs := timeToUnixMillis atTime, Status := .STATUS_PENDING,
        Op := .OperationRestore none } w with ⟨err, base1, w1⟩
  have hp : pendingOperation timeToUnixMillis opts atTime =
      { PlanId := opts.PlanId, RepoId := opts.RepoId, SnapshotId := opts.SnapshotId,
        UnixTimeStartMs := timeToUnixMillis atTime, Status := .STATUS_PENDING,
        Op := .OperationRestore none } := rfl
  rw [hp, hs]
  cases err with
  | none =>
    simp only [Option.isSome_none, Bool.false_eq_true, if_false]
    rw [RestoreTask_NextAll_consumed b timeToUnixMillis nows _ _ rfl]
  | some err =>
    simp only [Option.isSome_some, if_true]
    rw [RestoreTask_NextAll_consumed b timeToUnixMillis nows _ _ rfl]

/-- C10 (evaluation of the defect): a restore task with non-empty `SnapshotId`,
`Path`, `Target` and `RepoId`, on an orchestrator where `GetRepo` cannot resolve
the repo id.  The bound operation fails; on its error path `Run` looks the repo
up again, discards the error of the lookup and invokes `Config()` on the nil
handle: `Run` does not return the error, and no hook is executed. -/
theorem RestoreTask_Run_unknown_repo_dereferences_nil :
    (unknownRepoOrchestrator.GetRepo exampleRestoreOpts.RepoId).toOption.isNone = true ∧
      ((specBinding okLog secondsClock).runWithOpAndContext (some examplePendingOperation)
        (restoreDo unknownRepoOrchestrator secondsClock latin1IsPrint exampleRestoreOpts) {}).1.map
          GoError.Error = some "couldn't get repo \"repo\": repo repo not found" ∧
      (RestoreTask.Run (specBinding okLog secondsClock) unknownRepoOrchestrator secondsClock latin1IsPrint
        (scheduledRestoreTask exampleRestoreOpts) {}).1.observed = none ∧
      (RestoreTask.Run (specBinding okLog secondsClock) unknownRepoOrchestrator secondsClock latin1IsPrint
        (scheduledRestoreTask exampleRestoreOpts) {}).2.1 = [] := by
  refine ⟨by decide, by decide, by decide, by decide⟩

theorem PeekDeadline_fold {σ : Type} (q : List (QueueEntry σ)) :
    ∀ acc : Option Time, (acc ≠ none ∨ q ≠ []) →
      ∃ d, q.foldl (fun acc e =>
          match acc with
          | none => some e.nextRunTime
          | some m => some (min m e.nextRunTime)) acc = some d ∧
        (∀ m, acc = some m → d ≤ m) ∧ ∀ x ∈ q, d ≤ x.nextRunTime := by
  induction q with
  | nil =>
    intro acc h
    cases acc with
    | none => simp at h
    | some m => exact ⟨m, rfl, fun m1 h1 => by cases h1; exact le_refl _, by simp⟩
  | cons x xs ih =>
    intro acc _
    rw [List.foldl_cons]
    cases acc with
    | none =>
      obtain ⟨d, hd, hm, hx⟩ := ih (some x.nextRunTime) (Or.inl (by simp))
      refine ⟨d, hd, by simp, ?_⟩
      intro y hy
      rcases List.mem_cons.mp hy with rfl | hy
      · exact hm _ rfl
      · exact hx y hy
    | some m =>
      obtain ⟨d, hd, hm, hx⟩ := ih (some (min m x.nextRunTime)) (Or.inl (by simp))
      refine ⟨d, hd, ?_, ?_⟩
      · intro m1 h1
        cases h1
        exact le_trans (hm _ rfl) (min_le_left _ _)
      · intro y hy
        rcases List.mem_cons.mp hy with rfl | hy
        · exact le_trans (hm _ rfl) (min_le_right _ _)
        · exact hx y hy

theorem PeekDeadline_le {σ : Type} (q : List (QueueEntry σ)) (e : QueueEntry σ) (he : e ∈ q) :
    ∃ d, PeekDeadline q = some d ∧ d ≤ e.nextRunTime := by
  obtain ⟨d, hd, _, hx⟩ := PeekDeadline_fold q none (Or.inr (List.ne_nil_of_mem he))
  exact ⟨d, hd, hx e he⟩

theorem filter_eq_singleton_split {α : Type} (p : α → Bool) :
    ∀ (l : List α) (a : α), l.filter p = [a] →
      ∃ l1 l2, l = l1 ++ a :: l2 ∧ (∀ x ∈ l1, p x = false) ∧ (∀ x ∈ l2, p x = false) := by
  intro l
  induction l with
  | nil => intro a h; simp at h
  | cons x xs ih =>
    intro a h
    by_cases hx : p x = true
    · rw [List.filter_cons_of_pos hx] at h
      simp only [List.cons.injEq] at h
      obtain ⟨rfl, hxs⟩ := h
      refine ⟨[], xs, rfl, by simp, ?_⟩
      intro y hy
      by_contra hp
      have : y ∈ xs.filter p := List.mem_filter.mpr ⟨hy, by simpa using hp⟩
      rw [hxs] at this
      simp at this
    · rw [List.filter_cons_of_neg hx] at h
      obtain ⟨l1, l2, hl, h1, h2⟩ := ih a h
      refine ⟨x :: l1, l2, by rw [hl]; rfl, ?_, h2⟩
      intro y hy
      rcases List.mem_cons.mp hy with rfl | hy
      · simpa using hx
      · exact h1 y hy

theorem Scheduler_execute_other {σ : Type} (clock : Clock) (read now : Time) (nm : String)
    (s : Scheduler σ) (e : QueueEntry σ) (hne : e.task.Name ≠ nm) :
    entriesOf nm (Scheduler.execute clock read now s e).queue = entriesOf nm s.queue ∧
    eventsOf nm (Scheduler.execute clock read now s e).events = eventsOf nm s.events ∧
    droppedOf nm (Scheduler.execute clock read now s e).dropped = droppedOf nm s.dropped ∧
    s.tick < (Scheduler.execute clock read now s e).tick := by
  unfold Scheduler.execute
  rcases e.task.Run e.state with ⟨err, st⟩
  simp only
  rcases e.task.Next (max (clock s.tick) now) st with ⟨r, st2⟩
  cases r with
  | none => simp [entriesOf, eventsOf, droppedOf, SchedEvent.name, hne]
  | some t => simp [entriesOf, eventsOf, droppedOf, SchedEvent.name, hne, Scheduler.Push]

theorem Scheduler_foldl_others {σ : Type} (clock : Clock) (read now : Time) (nm : String)
    (l : List (QueueEntry σ)) :
    ∀ s : Scheduler σ, (∀ e ∈ l, e.task.Name ≠ nm) →
      entriesOf nm (l.foldl (Scheduler.execute clock read now) s).queue = entriesOf nm s.queue ∧
      eventsOf nm (l.foldl (Scheduler.execute clock read now) s).events = eventsOf nm s.events ∧
      droppedOf nm (l.foldl (Scheduler.execute clock read now) s).dropped =
        droppedOf nm s.dropped ∧
      s.tick ≤ (l.foldl (Scheduler.execute clock read now) s).tick := by
  induction l with
  | nil => intro s _; exact ⟨rfl, rfl, rfl, le_refl _⟩
  | cons x xs ih =>
    intro s h
    rw [List.foldl_cons]
    obtain ⟨h1, h2, h3, h4⟩ :=
      Scheduler_execute_other clock read now nm s x (h x (List.mem_cons_self _ _))
    obtain ⟨k1, k2, k3, k4⟩ := ih (Scheduler.execute clock read now s x)
      (fun e he => h e (List.mem_cons_of_mem _ he))
    exact ⟨k1.trans h1, k2.trans h2, k3.trans h3, le_trans (le_of_lt h4) k4⟩

theorem Scheduler_execute_mine {σ : Type} (clock : Clock) (read now : Time) (task : Task σ)
    (st : σ) (p : Int) (due : Time) (sq : Nat) (s : Scheduler σ)
    (hq : entriesOf task.Name s.queue = []) :
    eventsOf task.Name (Scheduler.execute clock read now s ⟨task, st, p, due, sq⟩).events =
      eventsOf task.Name s.events ++
        [SchedEvent.run task.Name due read now,
          SchedEvent.next task.Name (task.Next (max (clock s.tick) now) (task.Run st).2).1] ∧
    s.tick < (Scheduler.execute clock read now s ⟨task, st, p, due, sq⟩).tick ∧
    ((task.Next (max (clock s.tick) now) (task.Run st).2).1 = none →
      entriesOf task.Name (Scheduler.execute clock read now s ⟨task, st, p, due, sq⟩).queue = [] ∧
      droppedOf task.Name (Scheduler.execute clock read now s ⟨task, st, p, due, sq⟩).dropped =
        droppedOf task.Name s.dropped ++
          [(task.Next (max (clock s.tick) now) (task.Run st).2).2]) ∧
    (∀ t, (task.Next (max (clock s.tick) now) (task.Run st).2).1 = some t →
      entriesOf task.Name (Scheduler.execute clock read now s ⟨task, st, p, due, sq⟩).queue =
        [⟨task, (task.Next (max (clock s.tick) now) (task.Run st).2).2, p, t, s.seq⟩] ∧
      droppedOf task.Name (Scheduler.execute clock read now s ⟨task, st, p, due, sq⟩).dropped =
        droppedOf task.Name s.dropped) := by
  unfold Scheduler.execute
  rcases task.Run st with ⟨err, st1⟩
  simp only
  rcases task.Next (max (clock s.tick) now) st1 with ⟨r, st2⟩
  unfold entriesOf at hq
  cases r with
  | none => simp [entriesOf, eventsOf, droppedOf, SchedEvent.name, hq]
  | some t => simp [entriesOf, eventsOf, droppedOf, SchedEvent.name, hq, Scheduler.Push]

theorem filter_singleton_pos {α : Type} (p : α → Bool) (a : α) (h : p a = true) :
    [a].filter p = [a] := by
  simp [List.filter, h]

theorem filter_singleton_neg {α : Type} (p : α → Bool) (a : α) (h : p a = false) :
    [a].filter p = [] := by
  simp [List.filter, h]

theorem entriesOf_filter {σ : Type} (nm : String) (r : QueueEntry σ → Bool)
    (q : List (QueueEntry σ)) :
    entriesOf nm (q.filter r) = (entriesOf nm q).filter r := by
  unfold entriesOf
  rw [List.filter_filter, List.filter_filter]
  congr 1
  funext a
  exact Bool.and_comm _ _

theorem Scheduler_step_waiting {σ : Type} (clock : Clock) (s : Scheduler σ) (e : QueueEntry σ)
    (hq : entriesOf e.task.Name s.queue = [e]) (d : Time) (hd : PeekDeadline s.queue = some d)
    (hwait : ¬ e.nextRunTime ≤ max (clock s.tick) d) :
    ∃ s1, Scheduler.step clock s = some s1 ∧ s.tick < s1.tick ∧
      entriesOf e.task.Name s1.queue = [e] ∧
      eventsOf e.task.Name s1.events = eventsOf e.task.Name s.events ∧
      droppedOf e.task.Name s1.dropped = droppedOf e.task.Name s.dropped := by
  have hothers : ∀ x ∈ (s.queue.filter fun x =>
      decide (x.nextRunTime ≤ max (clock s.tick) d)).insertionSort runsBefore,
      x.task.Name ≠ e.task.Name := by
    intro x hx hname
    have hx1 : x ∈ s.queue.filter fun x => decide (x.nextRunTime ≤ max (clock s.tick) d) :=
      (List.perm_insertionSort runsBefore _).mem_iff.mp hx
    obtain ⟨hxq, hxr⟩ := List.mem_filter.mp hx1
    have hxe : x ∈ entriesOf e.task.Name s.queue :=
      List.mem_filter.mpr ⟨hxq, by simpa using hname⟩
    rw [hq, List.mem_singleton] at hxe
    subst hxe
    exact hwait (of_decide_eq_true hxr)
  have hrest : entriesOf e.task.Name
      (s.queue.filter fun x => decide (¬ x.nextRunTime ≤ max (clock s.tick) d)) = [e] := by
    rw [entriesOf_filter, hq]
    exact filter_singleton_pos _ _ (decide_eq_true hwait)
  obtain ⟨h1, h2, h3, h4⟩ := Scheduler_foldl_others clock (clock s.tick)
    (max (clock s.tick) d) e.task.Name _
    { s with
      queue := s.queue.filter fun x => decide (¬ x.nextRunTime ≤ max (clock s.tick) d),
      tick := s.tick + 1 } hothers
  refine ⟨((s.queue.filter fun x =>
      decide (x.nextRunTime ≤ max (clock s.tick) d)).insertionSort runsBefore).foldl
    (Scheduler.execute clock (clock s.tick) (max (clock s.tick) d))
    { s with
      queue := s.queue.filter fun x => decide (¬ x.nextRunTime ≤ max (clock s.tick) d),
      tick := s.tick + 1 }, ?_, ?_, ?_, ?_, ?_⟩
  · unfold Scheduler.step
    rw [hd]
    rfl
  · exact Nat.lt_of_lt_of_le (Nat.lt_succ_self _) h4
  · rw [h1]; exact hrest
  · rw [h2]
  · rw [h3]

theorem Scheduler_step_ready {σ : Type} (clock : Clock) (s : Scheduler σ) (task : Task σ)
    (st : σ) (p : Int) (due : Time) (sq : Nat)
    (hq : entriesOf task.Name s.queue = [⟨task, st, p, due, sq⟩]) (d : Time)
    (hd : PeekDeadline s.queue = some d) (hdle : d ≤ due)
    (hready : due ≤ max (clock s.tick) d) :
    ∃ (s1 : Scheduler σ) (nextNow : Time) (sq1 : Nat),
      Scheduler.step clock s = some s1 ∧ s.tick < s1.tick ∧
      eventsOf task.Name s1.events = eventsOf task.Name s.events ++
        [SchedEvent.run task.Name due (clock s.tick) (max (clock s.tick) due),
          SchedEvent.next task.Name (task.Next nextNow (task.Run st).2).1] ∧
      ((task.Next nextNow (task.Run st).2).1 = none →
        entriesOf task.Name s1.queue = [] ∧
        droppedOf task.Name s1.dropped =
          droppedOf task.Name s.dropped ++ [(task.Next nextNow (task.Run st).2).2]) ∧
      (∀ t, (task.Next nextNow (task.Run st).2).1 = some t →
        entriesOf task.Name s1.queue = [⟨task, (task.Next nextNow (task.Run st).2).2, p, t, sq1⟩] ∧
        droppedOf task.Name s1.dropped = droppedOf task.Name s.dropped) := by
  have hnow : max (clock s.tick) d = max (clock s.tick) due := by
    rcases le_total (clock s.tick) d with h | h
    · rw [max_eq_right h] at hready ⊢
      have hdd : d = due := le_antisymm hdle hready
      rw [hdd] at h ⊢
      exact (max_eq_right h).symm
    · rw [max_eq_left h] at hready ⊢
      rw [max_eq_left hready]
  have hmine : entriesOf task.Name ((s.queue.filter fun x =>
      decide (x.nextRunTime ≤ max (clock s.tick) d)).insertionSort runsBefore) =
      [⟨task, st, p, due, sq⟩] := by
    have hperm : (entriesOf task.Name ((s.queue.filter fun x =>
        decide (x.nextRunTime ≤ max (clock s.tick) d)).insertionSort runsBefore)).Perm
        (entriesOf task.Name (s.queue.filter fun x =>
          decide (x.nextRunTime ≤ max (clock s.tick) d))) :=
      (List.perm_insertionSort runsBefore _).filter _
    rw [entriesOf_filter, hq] at hperm
    have hf : ([⟨task, st, p, due, sq⟩] : List (QueueEntry σ)).filter
        (fun x => decide (x.nextRunTime ≤ max (clock s.tick) d)) = [⟨task, st, p, due, sq⟩] := by
      exact filter_singleton_pos _ _ (decide_eq_true hready)
    rw [hf] at hperm
    exact List.perm_singleton.mp hperm
  have hrest : entriesOf task.Name
      (s.queue.filter fun x => decide (¬ x.nextRunTime ≤ max (clock s.tick) d)) = [] := by
    rw [entriesOf_filter, hq]
    exact filter_singleton_neg _ _ (decide_eq_false (not_not_intro hready))
  obtain ⟨l1, l2, hsplit, hl1, hl2⟩ := filter_eq_singleton_split _ _ _ hmine
  have ho1 : ∀ x ∈ l1, x.task.Name ≠ task.Name := fun x hx => by simpa using hl1 x hx
  have ho2 : ∀ x ∈ l2, x.task.Name ≠ task.Name := fun x hx => by simpa using hl2 x hx
  obtain ⟨a1, a2, a3, a4⟩ := Scheduler_foldl_others clock (clock s.tick)
    (max (clock s.tick) d) task.Name l1
    { s with
      queue := s.queue.filter fun x => decide (¬ x.nextRunTime ≤ max (clock s.tick) d),
      tick := s.tick + 1 } ho1
  rw [hrest] at a1
  obtain ⟨b1, b2, b3, b4⟩ := Scheduler_execute_mine clock (clock s.tick)
    (max (clock s.tick) d) task st p due sq _ a1
  obtain ⟨c1, c2, c3, c4⟩ := Scheduler_foldl_others clock (clock s.tick)
    (max (clock s.tick) d) task.Name l2 _ ho2
  refine ⟨l2.foldl (Scheduler.execute clock (clock s.tick) (max (clock s.tick) d))
      (Scheduler.execute clock (clock s.tick) (max (clock s.tick) d)
        (l1.foldl (Scheduler.execute clock (clock s.tick) (max (clock s.tick) d))
          { s with
            queue := s.queue.filter fun x => decide (¬ x.nextRunTime ≤ max (clock s.tick) d),
            tick := s.tick + 1 })
        ⟨task, st, p, due, sq⟩),
    max (clock (l1.foldl (Scheduler.execute clock (clock s.tick) (max (clock s.tick) d))
      { s with
        queue := s.queue.filter fun x => decide (¬ x.nextRunTime ≤ max (clock s.tick) d),
        tick := s.tick + 1 }).tick) (max (clock s.tick) d),
    (l1.foldl (Scheduler.execute clock (clock s.tick) (max (clock s.tick) d))
      { s with
        queue := s.queue.filter fun x => decide (¬ x.nextRunTime ≤ max (clock s.tick) d),
        tick := s.tick + 1 }).seq, ?_, ?_, ?_, ?_, ?_⟩
  · unfold Scheduler.step
    rw [hd]
    simp only [PopReady]
    rw [hsplit, List.foldl_append, List.foldl_cons]
  · exact Nat.lt_of_lt_of_le (Nat.lt_of_lt_of_le (Nat.lt_of_lt_of_le (Nat.lt_succ_self _) a4)
      (le_of_lt b2)) c4
  · rw [c2, b1, a2, hnow]
  · intro hnone
    obtain ⟨x1, x2⟩ := b3 hnone
    exact ⟨by rw [c1, x1], by rw [c3, x2, a3]⟩
  · intro t ht
    obtain ⟨x1, x2⟩ := b4 t ht
    exact ⟨by rw [c1, x1], by rw [c3, x2, a3]⟩

theorem Scheduler_step_without {σ : Type} (clock : Clock) (nm : String) (s s1 : Scheduler σ)
    (hq : entriesOf nm s.queue = []) (hstep : Scheduler.step clock s = some s1) :
    entriesOf nm s1.queue = [] ∧ eventsOf nm s1.events = eventsOf nm s.events ∧
      droppedOf nm s1.dropped = droppedOf nm s.dropped := by
  unfold Scheduler.step at hstep
  cases hd : PeekDeadline s.queue with
  | none => rw [hd] at hstep; simp at hstep
  | some d =>
    rw [hd] at hstep
    simp only [PopReady, Option.some.injEq] at hstep
    have hothers : ∀ x ∈ (s.queue.filter fun x =>
        decide (x.nextRunTime ≤ max (clock s.tick) d)).insertionSort runsBefore,
        x.task.Name ≠ nm := by
      intro x hx hname
      have hx1 : x ∈ s.queue.filter fun x => decide (x.nextRunTime ≤ max (clock s.tick) d) :=
        (List.perm_insertionSort runsBefore _).mem_iff.mp hx
      have hxe : x ∈ entriesOf nm s.queue :=
        List.mem_filter.mpr ⟨(List.mem_filter.mp hx1).1, by simpa using hname⟩
      rw [hq] at hxe
      simp at hxe
    obtain ⟨h1, h2, h3, _⟩ := Scheduler_foldl_others clock (clock s.tick)
      (max (clock s.tick) d) nm _
      { s with
        queue := s.queue.filter fun x => decide (¬ x.nextRunTime ≤ max (clock s.tick) d),
        tick := s.tick + 1 } hothers
    rw [hstep] at h1 h2 h3
    refine ⟨?_, h2, h3⟩
    rw [h1, entriesOf_filter, hq]
    rfl

theorem Scheduler_Run_without {σ : Type} (clock : Clock) (nm : String) :
    ∀ (fuel : Nat) (s : Scheduler σ), entriesOf nm s.queue = [] →
      entriesOf nm (Scheduler.Run clock fuel s).queue = [] ∧
      eventsOf nm (Scheduler.Run clock fuel s).events = eventsOf nm s.events ∧
      droppedOf nm (Scheduler.Run clock fuel s).dropped = droppedOf nm s.dropped := by
  intro fuel
  induction fuel with
  | zero => intro s hq; exact ⟨hq, rfl, rfl⟩
  | succ k ih =>
    intro s hq
    rw [Scheduler.Run]
    cases hstep : Scheduler.step clock s with
    | none => exact ⟨hq, rfl, rfl⟩
    | some s1 =>
      obtain ⟨h1, h2, h3⟩ := Scheduler_step_without clock nm s s1 hq hstep
      obtain ⟨k1, k2, k3⟩ := ih s1 h1
      exact ⟨k1, k2.trans h2, k3.trans h3⟩

theorem Scheduler_Run_until_ready {σ : Type} (clock : Clock) (hmono : Monotone clock)
    (task : Task σ) (st : σ) (p : Int) (due : Time) (n0 : Nat) (hn0 : due ≤ clock n0) :
    ∀ (m : Nat) (s : Scheduler σ) (sq : Nat), n0 - s.tick ≤ m →
      entriesOf task.Name s.queue = [⟨task, st, p, due, sq⟩] →
      ∃ (k : Nat) (s1 : Scheduler σ) (read nextNow : Time) (sq1 : Nat),
        (∀ fuel, Scheduler.Run clock (fuel + k) s = Scheduler.Run clock fuel s1) ∧
        eventsOf task.Name s1.events = eventsOf task.Name s.events ++
          [SchedEvent.run task.Name due read (max read due),
            SchedEvent.next task.Name (task.Next nextNow (task.Run st).2).1] ∧
        ((task.Next nextNow (task.Run st).2).1 = none →
          entriesOf task.Name s1.queue = [] ∧
          droppedOf task.Name s1.dropped =
            droppedOf task.Name s.dropped ++ [(task.Next nextNow (task.Run st).2).2]) ∧
        (∀ t, (task.Next nextNow (task.Run st).2).1 = some t →
          entriesOf task.Name s1.queue =
            [⟨task, (task.Next nextNow (task.Run st).2).2, p, t, sq1⟩] ∧
          droppedOf task.Name s1.dropped = droppedOf task.Name s.dropped) := by
  intro m
  induction m with
  | zero =>
    intro s sq hm hq
    have hmem : (⟨task, st, p, due, sq⟩ : QueueEntry σ) ∈ s.queue := by
      have : (⟨task, st, p, due, sq⟩ : QueueEntry σ) ∈ entriesOf task.Name s.queue := by
        rw [hq]; exact List.mem_singleton_self _
      exact (List.mem_filter.mp this).1
    obtain ⟨d, hd, hdle⟩ := PeekDeadline_le s.queue _ hmem
    have hready : due ≤ max (clock s.tick) d :=
      le_trans (le_trans hn0 (hmono (by omega))) (le_max_left _ _)
    obtain ⟨s1, nextNow, sq1, hstep, _, hev, hnone, hsome⟩ :=
      Scheduler_step_ready clock s task st p due sq hq d hd hdle hready
    refine ⟨1, s1, clock s.tick, nextNow, sq1, ?_, hev, hnone, hsome⟩
    intro fuel
    rw [Scheduler.Run, hstep]
  | succ m ih =>
    intro s sq hm hq
    have hmem : (⟨task, st, p, due, sq⟩ : QueueEntry σ) ∈ s.queue := by
      have : (⟨task, st, p, due, sq⟩ : QueueEntry σ) ∈ entriesOf task.Name s.queue := by
        rw [hq]; exact List.mem_singleton_self _
      exact (List.mem_filter.mp this).1
    obtain ⟨d, hd, hdle⟩ := PeekDeadline_le s.queue _ hmem
    by_cases hready : due ≤ max (clock s.tick) d
    · obtain ⟨s1, nextNow, sq1, hstep, _, hev, hnone, hsome⟩ :=
        Scheduler_step_ready clock s task st p due sq hq d hd hdle hready
      refine ⟨1, s1, clock s.tick, nextNow, sq1, ?_, hev, hnone, hsome⟩
      intro fuel
      rw [Scheduler.Run, hstep]
    · obtain ⟨s1, hstep, htick, hq1, hev1, hdr1⟩ :=
        Scheduler_step_waiting clock s ⟨task, st, p, due, sq⟩ hq d hd hready
      obtain ⟨k, s2, read, nextNow, sq1, hrun, hev, hnone, hsome⟩ :=
        ih s1 sq (by omega) hq1
      refine ⟨k + 1, s2, read, nextNow, sq1, ?_, ?_, ?_, ?_⟩
      · intro fuel
        rw [← hrun fuel, ← Nat.add_assoc, Scheduler.Run, hstep]
      · rw [hev, hev1]
      · intro h
        obtain ⟨x1, x2⟩ := hnone h
        exact ⟨x1, by rw [x2, hdr1]⟩
      · intro t h
        obtain ⟨x1, x2⟩ := hsome t h
        exact ⟨x1, by rw [x2, hdr1]⟩

theorem Scheduler_Run_pending {σ : Type} (clock : Clock) (hmono : Monotone clock)
    (hpass : ∀ t : Time, ∃ n, t ≤ clock n) (task : Task σ) (left : σ → Nat)
    (habsent : ∀ now s, left s = 0 → (task.Next now s).1 = none)
    (hsome : ∀ now s, 0 < left s →
      ∃ t, (task.Next now s).1 = some t ∧ left (task.Next now s).2 + 1 = left s)
    (hrun : ∀ s, left (task.Run s).2 = left s) :
    ∀ (n : Nat) (s : Scheduler σ) (st : σ) (p : Int) (due : Time) (sq : Nat),
      left st = n → entriesOf task.Name s.queue = [⟨task, st, p, due, sq⟩] →
      ∃ (k : Nat) (rounds : List (Time × Time)) (nows : List Time) (read : Time),
        rounds.length = n ∧ nows.length = n + 1 ∧
        ∀ fuel, k ≤ fuel →
          entriesOf task.Name (Scheduler.Run clock fuel s).queue = [] ∧
          eventsOf task.Name (Scheduler.Run clock fuel s).events =
            eventsOf task.Name s.events ++
              SchedEvent.run task.Name due read (max read due) ::
                rescheduleEvents task.Name rounds ∧
          droppedOf task.Name (Scheduler.Run clock fuel s).dropped =
            droppedOf task.Name s.dropped ++ [afterRounds task nows st] := by
  intro n
  induction n with
  | zero =>
    intro s st p due sq hleft hq
    obtain ⟨n0, hn0⟩ := hpass due
    obtain ⟨k, s1, read, nextNow, sq1, hk, hev, hnone, _⟩ :=
      Scheduler_Run_until_ready clock hmono task st p due n0 hn0 (n0 - s.tick) s sq
        (le_refl _) hq
    have hr : (task.Next nextNow (task.Run st).2).1 = none :=
      habsent nextNow _ (by rw [hrun, hleft])
    obtain ⟨hq1, hdr1⟩ := hnone hr
    rw [hr] at hev
    refine ⟨k, [], [nextNow], read, rfl, rfl, ?_⟩
    intro fuel hfuel
    obtain ⟨f, rfl⟩ : ∃ f, fuel = f + k := ⟨fuel - k, by omega⟩
    rw [hk f]
    obtain ⟨a1, a2, a3⟩ := Scheduler_Run_without clock task.Name f s1 hq1
    refine ⟨a1, ?_, ?_⟩
    · rw [a2, hev]; simp [rescheduleEvents]
    · rw [a3, hdr1]; rfl
  | succ n ih =>
    intro s st p due sq hleft hq
    obtain ⟨n0, hn0⟩ := hpass due
    obtain ⟨k, s1, read, nextNow, sq1, hk, hev, _, hsm⟩ :=
      Scheduler_Run_until_ready clock hmono task st p due n0 hn0 (n0 - s.tick) s sq
        (le_refl _) hq
    obtain ⟨t, ht, hdec⟩ := hsome nextNow (task.Run st).2 (by rw [hrun, hleft]; omega)
    obtain ⟨hq1, hdr1⟩ := hsm t ht
    rw [ht] at hev
    have hl2 : left (task.Next nextNow (task.Run st).2).2 = n := by
      rw [hrun, hleft] at hdec; omega
    obtain ⟨k1, rounds, nows, read1, hlen, hnl, hfin⟩ :=
      ih s1 _ p t sq1 hl2 hq1
    refine ⟨k1 + k, (t, read1) :: rounds, nextNow :: nows, read, by simp [hlen],
      by simp [hnl], ?_⟩
    intro fuel hfuel
    obtain ⟨f, rfl⟩ : ∃ f, fuel = f + k := ⟨fuel - k, by omega⟩
    rw [hk f]
    obtain ⟨a1, a2, a3⟩ := hfin f (by omega)
    refine ⟨a1, ?_, ?_⟩
    · rw [a2, hev]; simp [rescheduleEvents]
    · rw [a3, hdr1]; rfl

/-- C9: for every task that has `left` non-absent results of `Next` to give
before it answers absent (whatever `now` it is asked with, and with `Run`
leaving that count alone), under a clock that never runs backwards and passes
every time: scheduling the task with `ScheduleTask` on an orchestrator in any
state in which no task of that name is queued, whatever else is queued, and
driving the loop long enough has this outcome, which more passes do not change.
The task is no longer queued.  What happened to it is exactly: every produced
time is followed by one `Run` for that time, made at the later of that time and
the reading of the clock in that pass, in the order the times were produced, and
the last `Next` answers absent.  The task is left in the state reached from the
one after its first `Next` by one `Run` and one `Next` per produced time.  So
`Run` is invoked exactly `left` times and `Next` once more than that. -/
theorem Scheduler_runs_once_per_produced_time {σ : Type} (clock : Clock)
    (hmono : Monotone clock) (hpass : ∀ t : Time, ∃ n, t ≤ clock n) (task : Task σ)
    (left : σ → Nat)
    (habsent : ∀ now s, left s = 0 → (task.Next now s).1 = none)
    (hsome : ∀ now s, 0 < left s →
      ∃ t, (task.Next now s).1 = some t ∧ left (task.Next now s).2 + 1 = left s)
    (hrun : ∀ s, left (task.Run s).2 = left s)
    (s0 : Scheduler σ) (hfresh : entriesOf task.Name s0.queue = [])
    (state : σ) (priority : Int) :
    ∃ (fuel0 : Nat) (rounds : List (Time × Time)) (nows : List Time),
      rounds.length = left state ∧ nows.length = left state ∧
      ∀ fuel, fuel0 ≤ fuel →
        entriesOf task.Name (driven clock fuel s0 task state priority).queue = [] ∧
        eventsOf task.Name (driven clock fuel s0 task state priority).events =
          eventsOf task.Name s0.events ++ rescheduleEvents task.Name rounds ∧
        droppedOf task.Name (driven clock fuel s0 task state priority).dropped =
          droppedOf task.Name s0.dropped ++
            [afterRounds task nows (task.Next (clock s0.tick) state).2] := by
  unfold driven
  rcases hN : task.Next (clock s0.tick) state with ⟨r, st1⟩
  cases hleft : left state with
  | zero =>
    have h0 := habsent (clock s0.tick) state hleft
    rw [hN] at h0
    simp only at h0
    subst h0
    have hs : Scheduler.ScheduleTask clock s0 task state priority =
        { s0 with
          tick := s0.tick + 1,
          events := s0.events ++ [SchedEvent.next task.Name none],
          dropped := s0.dropped ++ [(task.Name, st1)] } := by
      simp [Scheduler.ScheduleTask, hN]
    refine ⟨0, [], [], rfl, rfl, ?_⟩
    intro fuel _
    rw [hs]
    obtain ⟨a1, a2, a3⟩ := Scheduler_Run_without clock task.Name fuel
      { s0 with
        tick := s0.tick + 1,
        events := s0.events ++ [SchedEvent.next task.Name none],
        dropped := s0.dropped ++ [(task.Name, st1)] } hfresh
    refine ⟨a1, ?_, ?_⟩
    · rw [a2]; simp [eventsOf, rescheduleEvents, SchedEvent.name]
    · rw [a3]; simp [droppedOf, afterRounds]
  | succ n =>
    obtain ⟨t, ht, hdec⟩ := hsome (clock s0.tick) state (by omega)
    rw [hN] at ht hdec
    simp only at ht hdec
    subst ht
    have hs : Scheduler.ScheduleTask clock s0 task state priority =
        { s0 with
          queue := s0.queue ++ [⟨task, st1, priority, t, s0.seq⟩],
          seq := s0.seq + 1,
          tick := s0.tick + 1,
          events := s0.events ++ [SchedEvent.next task.Name (some t)] } := by
      simp [Scheduler.ScheduleTask, hN, Scheduler.Push]
    have hq : entriesOf task.Name
        (s0.queue ++ [(⟨task, st1, priority, t, s0.seq⟩ : QueueEntry σ)]) =
        [⟨task, st1, priority, t, s0.seq⟩] := by
      unfold entriesOf at hfresh ⊢
      rw [List.filter_append, hfresh]
      simp
    obtain ⟨k, rounds, nows, read, hlen, hnl, hfin⟩ :=
      Scheduler_Run_pending clock hmono hpass task left habsent hsome hrun n
        { s0 with
          queue := s0.queue ++ [⟨task, st1, priority, t, s0.seq⟩],
          seq := s0.seq + 1,
          tick := s0.tick + 1,
          events := s0.events ++ [SchedEvent.next task.Name (some t)] }
        st1 priority t s0.seq (by omega) hq
    refine ⟨k, (t, read) :: rounds, nows, by simp [hlen], hnl, ?_⟩
    intro fuel hfuel
    rw [hs]
    obtain ⟨a1, a2, a3⟩ := hfin fuel hfuel
    refine ⟨a1, ?_, a3⟩
    rw [a2]
    simp [eventsOf, rescheduleEvents, SchedEvent.name]

theorem secondsClock_monotone : Monotone secondsClock := by
  intro a b hab
  unfold secondsClock
  have : (a : Int) ≤ (b : Int) := by exact_mod_cast hab
  linarith

theorem secondsClock_passes (t : Time) : ∃ n, t ≤ secondsClock n := by
  refine ⟨t.toNat, ?_⟩
  unfold secondsClock
  have h1 : t ≤ (t.toNat : Int) := Int.self_le_toNat t
  have h2 : (0 : Int) ≤ (t.toNat : Int) := Int.ofNat_nonneg _
  linarith

/-- C9, at the task of `TestTaskRescheduling`, scheduled on an orchestrator
that already runs a recurring task of higher priority: after twelve passes the
test task has left the queue with `count = 10` and `ranTimes = 10`, and ten runs
were made for it. -/
theorem Scheduler_runs_once_per_produced_time_witness :
    droppedOf reschedulingTestTask.Name
        (driven secondsClock 12 busyScheduler reschedulingTestTask (0, 0) 0).dropped =
        [(10, 10)] ∧
    (runsOf (eventsOf reschedulingTestTask.Name
        (driven secondsClock 12 busyScheduler reschedulingTestTask (0, 0) 0).events)).length =
        10 ∧
    ∃ (fuel0 : Nat) (rounds : List (Time × Time)) (nows : List Time),
      rounds.length = 10 ∧ nows.length = 10 ∧
      ∀ fuel, fuel0 ≤ fuel →
        entriesOf reschedulingTestTask.Name
          (driven secondsClock fuel busyScheduler reschedulingTestTask (0, 0) 0).queue = [] ∧
        eventsOf reschedulingTestTask.Name
          (driven secondsClock fuel busyScheduler reschedulingTestTask (0, 0) 0).events =
          eventsOf reschedulingTestTask.Name busyScheduler.events ++
            rescheduleEvents reschedulingTestTask.Name rounds ∧
        droppedOf reschedulingTestTask.Name
          (driven secondsClock fuel busyScheduler reschedulingTestTask (0, 0) 0).dropped =
          droppedOf reschedulingTestTask.Name busyScheduler.dropped ++
            [afterRounds reschedulingTestTask nows
              (reschedulingTestTask.Next (secondsClock busyScheduler.tick) (0, 0)).2] :=
  ⟨by decide, by decide,
    Scheduler_runs_once_per_produced_time secondsClock secondsClock_monotone
      secondsClock_passes reschedulingTestTask (fun s => 10 - s.1)
      (by
        intro now s h
        obtain ⟨count, ranTimes⟩ := s
        have hc : ¬ count < 10 := by simp only at h; omega
        simp [reschedulingTestTask, hc])
      (by
        intro now s h
        obtain ⟨count, ranTimes⟩ := s
        have hc : count < 10 := by simp only at h; omega
        refine ⟨now, by simp [reschedulingTestTask, hc], ?_⟩
        simp only [reschedulingTestTask, hc, if_true]
        omega)
      (by
        intro s
        obtain ⟨count, ranTimes⟩ := s
        rfl)
      busyScheduler rfl (0, 0) 0⟩

end Backrest
